import Mathlib

/-
Shallow embedding of src/src/genome.py: a circular genome with transposable
elements, implemented twice (ListGenome over a flat list, LinkedListGenome
over a singly linked node chain).  Python exceptions are modelled by
returning `none`; Python's insertion-ordered dictionaries are modelled by
association lists.
-/

namespace Genome

/-- Lookup in an insertion-ordered dictionary (Python `d[k]` / `k in d`). -/
def dlookup {α : Type} (k : Nat) : List (Nat × α) → Option α
  | [] => none
  | p :: ps => if p.1 = k then some p.2 else dlookup k ps

/-- Deletion from a dictionary (Python `del d[k]`; keys are unique). -/
def ddel {α : Type} (k : Nat) (d : List (Nat × α)) : List (Nat × α) :=
  d.filter (fun p => p.1 != k)

/-- Assignment `d[k] = v`: overwrite in place if present, else append. -/
def dset {α : Type} (k : Nat) (v : α) (d : List (Nat × α)) : List (Nat × α) :=
  if d.any (fun p => p.1 == k) then d.map (fun p => if p.1 == k then (k, v) else p)
  else d ++ [(k, v)]

/-- Key list of a dictionary (Python `list(d.keys())`). -/
def dkeys {α : Type} (d : List (Nat × α)) : List Nat := d.map Prod.fst

/-- Python list indexing `xs[i]`: negative indices count from the end,
out-of-range indices raise (modelled as `none`). -/
def pyGet {α : Type} (xs : List α) (i : Int) : Option α :=
  if 0 ≤ i then xs.get? i.toNat
  else if (-i).toNat ≤ xs.length then xs.get? (xs.length - (-i).toNat)
  else none

/-- Normalisation of a slice bound, as in `xs[i:i] = ys`: negative indices
count from the end, and the result is clamped into `[0, n]`. -/
def pySliceIdx (n : Nat) (i : Int) : Nat :=
  if i < 0 then (i + n).toNat else min i.toNat n

/-- State of `ListGenome`: the `nucleotide` list holds `none` for `'-'` and
`some k` where the Python list holds the integer TE id `k`; `active_TE` maps
an active TE id to its length; `te_id` is the next id to hand out. -/
structure ListGenome where
  nucleotide : List (Option Nat)
  active_TE : List (Nat × Nat)
  te_id : Nat
deriving DecidableEq

/-- `ListGenome.__init__`. -/
def ListGenome.create (n : Nat) : ListGenome :=
  ⟨List.replicate n none, [], 1⟩

/-- `ListGenome.insert_te`.  `none` models an uncaught `IndexError` from
`self.nucleotide[pos]`. -/
def ListGenome.insert_te (s : ListGenome) (pos : Int) (L : Nat) :
    Option (Nat × ListGenome) :=
  match pyGet s.nucleotide pos with
  | none => none
  | some tag =>
    let d0 := match tag with
      | some k => if (dlookup k s.active_TE).isSome then ddel k s.active_TE else s.active_TE
      | none => s.active_TE
    let i := s.te_id
    let d1 := dset i L d0
    let j := pySliceIdx s.nucleotide.length pos
    some (i, ⟨s.nucleotide.take j ++ List.replicate L (some i) ++ s.nucleotide.drop j,
              d1, i + 1⟩)

/-- `ListGenome.copy_te`.  Outer `none` models an uncaught exception
(`ValueError` from `list.index`, or `ZeroDivisionError`); `some (none, s)`
is the Python `return None`. -/
def ListGenome.copy_te (s : ListGenome) (te : Nat) (offset : Int) :
    Option (Option Nat × ListGenome) :=
  match dlookup te s.active_TE with
  | none => some (none, s)
  | some L =>
    match s.nucleotide.findIdx? (fun tag => tag == some te) with
    | none => none
    | some pos =>
      if s.nucleotide.length = 0 then none
      else
        match s.insert_te (((pos : Int) + offset) % (s.nucleotide.length : Int)) L with
        | none => none
        | some (i, s1) => some (some i, s1)

/-- `ListGenome.disable_te`. -/
def ListGenome.disable_te (s : ListGenome) (te : Nat) : ListGenome :=
  if (dlookup te s.active_TE).isSome then ⟨s.nucleotide, ddel te s.active_TE, s.te_id⟩
  else s

/-- `ListGenome.active_tes`. -/
def ListGenome.active_tes (s : ListGenome) : List Nat := dkeys s.active_TE

/-- `ListGenome.__len__`. -/
def ListGenome.len (s : ListGenome) : Nat := s.nucleotide.length

/-- The character rendered for one position tag by `ListGenome.__str__`. -/
def tagChar (d : List (Nat × Nat)) : Option Nat → Char
  | none => '-'
  | some k => if (dlookup k d).isSome then 'A' else 'x'

/-- `ListGenome.__str__`, as a list of characters. -/
def ListGenome.render (s : ListGenome) : List Char :=
  s.nucleotide.map (tagChar s.active_TE)

/-- A node of the linked realization: `te` is the status tag (0 empty,
1 active, 2 disabled), `next` an optional successor address, `te_id` the
owning TE id. -/
structure Node where
  te : Nat
  next : Option Nat
  te_id : Nat
deriving DecidableEq

/-- State of `LinkedListGenome`: nodes live in an allocation list and are
referred to by their index (a Python object reference); `head` is the
address of the head node; `active_TE` maps a TE id to (anchor address,
length); `length` is the cached position count. -/
structure LinkedListGenome where
  nodes : List Node
  head : Nat
  active_TE : List (Nat × Nat × Nat)
  next_TE_id : Nat
  length : Nat
deriving DecidableEq

/-- Address of the chain's tail, found by walking `next` as in the
`while current.next` loop; the fuel argument bounds the walk. -/
def tailFrom (nodes : List Node) : Nat → Nat → Nat
  | 0, a => a
  | fuel + 1, a =>
    match nodes.get? a with
    | none => a
    | some nd =>
      match nd.next with
      | none => a
      | some nx => tailFrom nodes fuel nx

/-- `LinkedListGenome.insert`: append a fresh node at the tail. -/
def LinkedListGenome.insert (s : LinkedListGenome) (te : Nat) : LinkedListGenome :=
  let a := tailFrom s.nodes s.nodes.length s.head
  let fresh := s.nodes.length
  match s.nodes.get? a with
  | none => s
  | some nd =>
    { s with nodes := s.nodes.set a { nd with next := some fresh } ++ [⟨te, none, 0⟩] }

/-- `LinkedListGenome.__init__`: a head node plus `n` appended nodes. -/
def LinkedListGenome.create (n : Nat) : LinkedListGenome :=
  let s0 : LinkedListGenome := ⟨[⟨0, none, 0⟩], 0, [], 1, 0⟩
  let s1 := (List.range n).foldl (fun s _ => s.insert 0) s0
  { s1 with length := n }

/-- One step `currentNode = currentNode.next`; `none` models the
`AttributeError` raised when `currentNode` is `None`. -/
def refStep (s : LinkedListGenome) : Option Nat → Option (Option Nat)
  | none => none
  | some a =>
    match s.nodes.get? a with
    | none => none
    | some nd => some nd.next

/-- `k` iterations of `currentNode = currentNode.next`. -/
def walkN (s : LinkedListGenome) : Nat → Option Nat → Option (Option Nat)
  | 0, r => some r
  | k + 1, r =>
    match refStep s r with
    | none => none
    | some r1 => walkN s k r1

/-- The retagging loop of `LinkedListGenome.disable_te`: set `te = 2` on
`k` consecutive nodes starting at reference `r`. -/
def retagN : Nat → Option Nat → LinkedListGenome → Option LinkedListGenome
  | 0, _, s => some s
  | _ + 1, none, _ => none
  | k + 1, some a, s =>
    match s.nodes.get? a with
    | none => none
    | some nd => retagN k nd.next { s with nodes := s.nodes.set a { nd with te := 2 } }

/-- `LinkedListGenome.disable_te`.  `none` models the uncaught `KeyError`
from `self.active_TE[te]` when `te` is not active. -/
def LinkedListGenome.disable_te (s : LinkedListGenome) (te : Nat) :
    Option LinkedListGenome :=
  match dlookup te s.active_TE with
  | none => none
  | some al =>
    match retagN al.2 (some al.1) s with
    | none => none
    | some s1 => some { s1 with active_TE := ddel te s1.active_TE }

/-- The insertion loop shared by `insert_te` and `copy_te`: splice `k` fresh
active nodes (tagged `te_id = tid`) after the current reference; on the
first iteration register `(node, L)` under `tid` in the active index.  Each
new node's `te_id` is assigned immediately after its `insert_in`. -/
def spliceLoop (tid L : Nat) : Nat → Option Nat → Bool → LinkedListGenome →
    Option LinkedListGenome
  | 0, _, _, s => some s
  | _ + 1, none, _, _ => none
  | k + 1, some a, first, s =>
    match s.nodes.get? a with
    | none => none
    | some nd =>
      let fresh := s.nodes.length
      let s1 : LinkedListGenome :=
        { s with nodes := s.nodes.set a { nd with next := some fresh } ++ [⟨1, nd.next, tid⟩] }
      let s2 := if first then { s1 with active_TE := dset tid (fresh, L) s1.active_TE } else s1
      spliceLoop tid L k (some fresh) false s2

/-- `LinkedListGenome.insert_te`.  `none` models an uncaught exception
(`ZeroDivisionError` from `position % self.length`, an `AttributeError`
from dereferencing `None`, or a `KeyError` from the inner `disable_te`). -/
def LinkedListGenome.insert_te (s : LinkedListGenome) (position : Int) (L : Nat) :
    Option (Nat × LinkedListGenome) :=
  if s.length = 0 then none
  else
    let p := (position % (s.length : Int)).toNat
    let tid := s.next_TE_id
    match walkN s (p - 1) (some s.head) with
    | none => none
    | some insertionNode =>
      match refStep s insertionNode with
      | none => none
      | some cur =>
        match cur with
        | none => none
        | some ca =>
          match s.nodes.get? ca with
          | none => none
          | some cnd =>
            match (if cnd.te = 1 then s.disable_te cnd.te_id else some s) with
            | none => none
            | some s1 =>
              match spliceLoop tid L L insertionNode true s1 with
              | none => none
              | some s2 =>
                some (tid, { s2 with next_TE_id := tid + 1, length := s2.length + L })

/-- The search loop of `LinkedListGenome.copy_te`: walk at most `k` steps
looking for a node with `te_id = te`, returning the position counter
(`k` itself when the loop exhausts without a break, as in the source). -/
def findTE (s : LinkedListGenome) (te : Nat) : Nat → Option Nat → Nat → Option Nat
  | 0, _, pos => some pos
  | _ + 1, none, _ => none
  | k + 1, some a, pos =>
    match s.nodes.get? a with
    | none => none
    | some nd =>
      if nd.te_id = te then some pos
      else findTE s te k nd.next (pos + 1)

/-- `LinkedListGenome.copy_te`.  Outer `none` models an uncaught exception;
`some (none, s)` is the Python `return None` for an inactive id. -/
def LinkedListGenome.copy_te (s : LinkedListGenome) (te : Nat) (offset : Int) :
    Option (Option Nat × LinkedListGenome) :=
  match dlookup te s.active_TE with
  | none => some (none, s)
  | some _ =>
    match findTE s te s.length (some s.head) 0 with
    | none => none
    | some pos0 =>
      if s.length = 0 then none
      else
        let tid := s.next_TE_id
        let pos := pos0 + (offset % (s.length : Int)).toNat
        match walkN s (pos - 1) (some s.head) with
        | none => none
        | some insertionNode =>
          match dlookup te s.active_TE with
          | none => none
          | some al =>
            match refStep s insertionNode with
            | none => none
            | some cur =>
              match cur with
              | none => none
              | some ca =>
                match s.nodes.get? ca with
                | none => none
                | some cnd =>
                  match (if cnd.te = 1 then s.disable_te cnd.te_id else some s) with
                  | none => none
                  | some s1 =>
                    match spliceLoop tid al.2 al.2 insertionNode true s1 with
                    | none => none
                    | some s2 =>
                      some (some tid,
                        { s2 with next_TE_id := tid + 1, length := s2.length + al.2 })

/-- `LinkedListGenome.active_tes`. -/
def LinkedListGenome.active_tes (s : LinkedListGenome) : List Nat := dkeys s.active_TE

/-- The node traversal shared by `__len__` and `__str__`: collect every
node visited by `last = self.head; while last.next: ...; last = last.next`
(that is, every reachable node that has a successor, in chain order).  The
fuel `s.nodes.length` suffices for any acyclic chain. -/
def chainOut (s : LinkedListGenome) : Nat → Nat → List Node
  | 0, _ => []
  | fuel + 1, a =>
    match s.nodes.get? a with
    | none => []
    | some nd =>
      match nd.next with
      | none => []
      | some nx => nd :: chainOut s fuel nx

/-- `LinkedListGenome.__len__`: the number of loop iterations. -/
def LinkedListGenome.len (s : LinkedListGenome) : Nat :=
  (chainOut s s.nodes.length s.head).length

/-- The character rendered for one node by `LinkedListGenome.__str__`. -/
def teChar (t : Nat) : Char :=
  if t = 1 then 'A' else if t = 2 then 'x' else '-'

/-- `LinkedListGenome.__str__`, as a list of characters. -/
def LinkedListGenome.render (s : LinkedListGenome) : List Char :=
  (chainOut s s.nodes.length s.head).map (fun nd => teChar nd.te)

/-- One contract operation, applied identically to either realization. -/
inductive GOp : Type
  | ins (pos : Int) (L : Nat)
  | cpy (te : Nat) (offset : Int)
  | dis (te : Nat)
deriving DecidableEq

/-- One `ListGenome` step: `some (some i, s)` returned id `i`,
`some (none, s)` returned no id, `none` raised. -/
def ListGenome.step (s : ListGenome) : GOp → Option (Option Nat × ListGenome)
  | .ins p L => (s.insert_te p L).map (fun pr => (some pr.1, pr.2))
  | .cpy t o => s.copy_te t o
  | .dis t => some (none, s.disable_te t)

/-- Run a list of operations on a `ListGenome`, collecting the returned
ids; an uncaught exception aborts the run. -/
def ListGenome.run : List GOp → ListGenome → List Nat × ListGenome
  | [], s => ([], s)
  | op :: ops, s =>
    match s.step op with
    | none => ([], s)
    | some (r, s1) =>
      let rest := ListGenome.run ops s1
      (r.toList ++ rest.1, rest.2)

/-- One `LinkedListGenome` step, in the same format. -/
def LinkedListGenome.step (s : LinkedListGenome) (op : GOp) :
    Option (Option Nat × LinkedListGenome) :=
  match op with
  | .ins p L => (s.insert_te p L).map (fun pr => (some pr.1, pr.2))
  | .cpy t o => s.copy_te t o
  | .dis t => (s.disable_te t).map (fun s1 => ((none : Option Nat), s1))

/-- Run a list of operations on a `LinkedListGenome`, collecting ids. -/
def LinkedListGenome.run : List GOp → LinkedListGenome → List Nat × LinkedListGenome
  | [], s => ([], s)
  | op :: ops, s =>
    match s.step op with
    | none => ([], s)
    | some (r, s1) =>
      let rest := LinkedListGenome.run ops s1
      (r.toList ++ rest.1, rest.2)

end Genome

namespace Genome

/-- C1: the claim that the two realizations produce identical observable
results for every operation sequence is false: from `create(2)`, the single
call `insert_te(0, 1)` returns id 1 in both, but `ListGenome` renders
`"A--"` while `LinkedListGenome` renders `"-A-"` (the linked realization
keeps its sentinel head as position 0 and splices after it). -/
theorem C1_realizations_diverge :
    (ListGenome.insert_te (ListGenome.create 2) 0 1).map
        (fun pr => (pr.1, pr.2.render)) = some (1, ['A', '-', '-'])
  ∧ (LinkedListGenome.insert_te (LinkedListGenome.create 2) 0 1).map
        (fun pr => (pr.1, pr.2.render)) = some (1, ['-', 'A', '-']) := by decide

/-- C2: `disable_te(99)` on a fresh genome of size 10 is a silent no-op in
`ListGenome`, but raises `KeyError` (modelled as `none`) in
`LinkedListGenome`, whose `disable_te` reads `self.active_TE[te]` without a
membership guard. -/
theorem C2_disable_nonexistent :
    ListGenome.disable_te (ListGenome.create 10) 99 = ListGenome.create 10
  ∧ LinkedListGenome.disable_te (LinkedListGenome.create 10) 99 = none := by decide

/-- C3: `ListGenome.insert_te` does not normalize `pos` modulo the genome
length: on a genome of size 10, `insert_te(10, 3)` raises `IndexError`
(modelled as `none`) from `self.nucleotide[pos]`. -/
theorem C3_insert_out_of_range_raises :
    ListGenome.insert_te (ListGenome.create 10) 10 3 = none := by decide

/-- C4 counterexample: after `create(10)` and `insert_te(2, 3)` the genome
has 13 positions, so its render is not the 10-character string
`"--AAA-----"` — in either realization. -/
theorem C4_render_counterexample :
    (ListGenome.insert_te (ListGenome.create 10) 2 3).map (fun pr => pr.2.render) ≠
        some ['-', '-', 'A', 'A', 'A', '-', '-', '-', '-', '-']
  ∧ (LinkedListGenome.insert_te (LinkedListGenome.create 10) 2 3).map
        (fun pr => pr.2.render) ≠
        some ['-', '-', 'A', 'A', 'A', '-', '-', '-', '-', '-'] := by decide

/-- C4 amended: starting from `create(10)`, render is `"----------"`, and
`insert_te(2, 3)` returns id 1 with render `"--AAA--------"` (the three
`A`s followed by the eight shifted empty positions) and length 13, in both
realizations. -/
theorem C4_scenario :
    (ListGenome.create 10).render =
        ['-', '-', '-', '-', '-', '-', '-', '-', '-', '-']
  ∧ (LinkedListGenome.create 10).render =
        ['-', '-', '-', '-', '-', '-', '-', '-', '-', '-']
  ∧ (ListGenome.insert_te (ListGenome.create 10) 2 3).map
        (fun pr => (pr.1, pr.2.render, pr.2.len)) =
      some (1, ['-', '-', 'A', 'A', 'A', '-', '-', '-', '-', '-', '-', '-', '-'], 13)
  ∧ (LinkedListGenome.insert_te (LinkedListGenome.create 10) 2 3).map
        (fun pr => (pr.1, pr.2.render, pr.2.len)) =
      some (1, ['-', '-', 'A', 'A', 'A', '-', '-', '-', '-', '-', '-', '-', '-'], 13) := by
  decide

/-- C6: `LinkedListGenome.copy_te` adds `offset % length` to the source
position without reducing the sum modulo the length, so the subsequent walk
runs off the end of the (non-circular) node chain and raises
`AttributeError` (modelled as `none`): from `create(10)`, `insert_te(8, 1)`
returns id 1, and `copy_te(1, 5)` crashes, while the `ListGenome` analogue
wraps circularly and returns id 2 with the copy at position (8+5) mod 11 = 2. -/
theorem C6_copy_walks_off_chain :
    ((LinkedListGenome.insert_te (LinkedListGenome.create 10) 8 1).bind
        (fun pr => pr.2.copy_te 1 5)) = none
  ∧ ((ListGenome.insert_te (ListGenome.create 10) 8 1).bind
        (fun pr => pr.2.copy_te 1 5)).map (fun pr => (pr.1, pr.2.render)) =
      some (some 2,
        ['-', '-', 'A', '-', '-', '-', '-', '-', '-', 'A', '-', '-']) := by decide

/-- C10 counterexample: a zero-length insertion whose position collides
with an active TE is not render-preserving in `ListGenome`: from
`create(2)` and `insert_te(0, 2)` (render `"AA--"`), calling
`insert_te(0, 0)` disables TE 1, changing the render to `"xx--"`. -/
theorem C10_render_counterexample :
    ((ListGenome.insert_te (ListGenome.create 2) 0 2).bind
        (fun pr => pr.2.insert_te 0 0)).map (fun pr => pr.2.render) ≠
      (ListGenome.insert_te (ListGenome.create 2) 0 2).map (fun pr => pr.2.render) := by
  decide

end Genome

namespace Genome

theorem dlookup_append_of_none {α : Type} {k : Nat} {d : List (Nat × α)}
    (e : List (Nat × α)) (h : dlookup k d = none) :
    dlookup k (d ++ e) = dlookup k e := by
  induction d with
  | nil => rfl
  | cons p ps ih =>
    by_cases hp : p.1 = k
    · simp [dlookup, hp] at h
    · simp [dlookup, hp] at h ⊢
      exact ih h

theorem dlookup_append_of_some {α : Type} {k : Nat} {d : List (Nat × α)} {v : α}
    (e : List (Nat × α)) (h : dlookup k d = some v) :
    dlookup k (d ++ e) = some v := by
  induction d with
  | nil => simp [dlookup] at h
  | cons p ps ih =>
    by_cases hp : p.1 = k
    · simp [dlookup, hp] at h ⊢; exact h
    · simp [dlookup, hp] at h ⊢; exact ih h

theorem dlookup_ddel_self {α : Type} (k : Nat) (d : List (Nat × α)) :
    dlookup k (ddel k d) = none := by
  induction d with
  | nil => rfl
  | cons p ps ih =>
    by_cases hp : p.1 = k
    · simpa [ddel, hp] using ih
    · simpa [ddel, hp, dlookup] using ih

theorem dlookup_ddel_ne {α : Type} {k t : Nat} (h : k ≠ t) (d : List (Nat × α)) :
    dlookup k (ddel t d) = dlookup k d := by
  induction d with
  | nil => rfl
  | cons p ps ih =>
    have ih2 : dlookup k (List.filter (fun p => p.1 != t) ps) = dlookup k ps := by
      simpa [ddel] using ih
    have htk : ¬ t = k := Ne.symm h
    by_cases hp : p.1 = t
    · have hpk : ¬ p.1 = k := fun hk => h (by rw [← hk, hp])
      simp [ddel, List.filter_cons, hp, dlookup, hpk, htk, ih2]
    · by_cases hk : p.1 = k <;>
        simp [ddel, List.filter_cons, bne_iff_ne, hp, dlookup, hk, ih2, htk, h]

theorem dlookup_ddel_none {α : Type} {k : Nat} (t : Nat) {d : List (Nat × α)}
    (h : dlookup k d = none) : dlookup k (ddel t d) = none := by
  by_cases hkt : k = t
  · subst hkt; exact dlookup_ddel_self k d
  · rw [dlookup_ddel_ne hkt]; exact h

theorem dlookup_none_any_false {α : Type} (k : Nat) :
    ∀ d : List (Nat × α), dlookup k d = none → d.any (fun p => p.1 == k) = false := by
  intro d
  induction d with
  | nil => intro _; rfl
  | cons p ps ih =>
    intro h
    by_cases hp : p.1 = k
    · simp [dlookup, hp] at h
    · simp [dlookup, hp] at h
      simp [List.any_cons, hp, ih h]

theorem dset_of_none {α : Type} {k : Nat} (v : α) {d : List (Nat × α)}
    (h : dlookup k d = none) : dset k v d = d ++ [(k, v)] := by
  simp [dset, dlookup_none_any_false k d h]

theorem mem_dkeys_iff {α : Type} (k : Nat) (d : List (Nat × α)) :
    k ∈ dkeys d ↔ (dlookup k d).isSome := by
  induction d with
  | nil => simp [dkeys, dlookup]
  | cons p ps ih =>
    simp only [dkeys, List.map_cons, List.mem_cons, dlookup]
    by_cases hp : p.1 = k
    · simp [hp]
    · simp only [if_neg hp]
      constructor
      · rintro (hk | hk)
        · exact absurd hk.symm hp
        · exact ih.1 hk
      · intro hs
        exact Or.inr (ih.2 hs)

/-- C7: copying an inactive id returns the Python `None` and performs no
mutation at all: the resulting state is exactly the input state, so
`length_of`, `active_tes`, `render`, and the id counter are all unchanged
and the next successful insertion returns the id it would have returned
anyway.  This holds in both realizations. -/
theorem C7_copy_inactive_noop :
    (∀ (s : ListGenome) (x : Nat) (offset : Int), dlookup x s.active_TE = none →
        s.copy_te x offset = some (none, s))
  ∧ (∀ (s : LinkedListGenome) (x : Nat) (offset : Int), dlookup x s.active_TE = none →
        s.copy_te x offset = some (none, s)) := by
  constructor
  · intro s x offset h
    unfold ListGenome.copy_te
    rw [h]
  · intro s x offset h
    unfold LinkedListGenome.copy_te
    rw [h]

/-- C7 witness: the no-op at the concrete state `create 3`, the absent id 7
and offset -2, in both realizations. -/
theorem C7_copy_inactive_witness :
    (ListGenome.create 3).copy_te 7 (-2) = some (none, ListGenome.create 3)
  ∧ (LinkedListGenome.create 3).copy_te 7 (-2) = some (none, LinkedListGenome.create 3) :=
  ⟨C7_copy_inactive_noop.1 (ListGenome.create 3) 7 (-2) (by decide),
   C7_copy_inactive_noop.2 (LinkedListGenome.create 3) 7 (-2) (by decide)⟩

end Genome

namespace Genome

theorem pyGet_natCast {α : Type} (xs : List α) (pos : Nat) :
    pyGet xs (pos : Int) = xs.get? pos := by
  simp [pyGet, Int.toNat_natCast]

theorem pySliceIdx_natCast (n pos : Nat) (h : pos ≤ n) :
    pySliceIdx n (pos : Int) = pos := by
  unfold pySliceIdx
  rw [if_neg (by omega : ¬ ((pos : Int) < 0)), Int.toNat_natCast]
  omega

theorem get?_lt_length {α : Type} {xs : List α} {pos : Nat} {a : α}
    (h : xs.get? pos = some a) : pos < xs.length := by
  by_contra hge
  rw [List.get?_eq_none.2 (Nat.le_of_not_lt hge)] at h
  exact Option.noConfusion h

/-- Closed form of `ListGenome.insert_te` at a valid position holding `'-'`. -/
theorem ListGenome.insert_te_eq_empty (s : ListGenome) (pos : Nat) (L : Nat)
    (h : s.nucleotide.get? pos = some none) :
    s.insert_te (pos : Int) L =
      some (s.te_id,
        ⟨s.nucleotide.take pos ++ List.replicate L (some s.te_id) ++ s.nucleotide.drop pos,
         dset s.te_id L s.active_TE,
         s.te_id + 1⟩) := by
  have hlt : pos < s.nucleotide.length := get?_lt_length h
  unfold ListGenome.insert_te
  rw [pyGet_natCast, h, pySliceIdx_natCast _ _ hlt.le]

/-- Closed form of `ListGenome.insert_te` at a valid position holding id `k`. -/
theorem ListGenome.insert_te_eq_te (s : ListGenome) (pos : Nat) (L : Nat) (k : Nat)
    (h : s.nucleotide.get? pos = some (some k)) :
    s.insert_te (pos : Int) L =
      some (s.te_id,
        ⟨s.nucleotide.take pos ++ List.replicate L (some s.te_id) ++ s.nucleotide.drop pos,
         dset s.te_id L
           (if (dlookup k s.active_TE).isSome then ddel k s.active_TE else s.active_TE),
         s.te_id + 1⟩) := by
  have hlt : pos < s.nucleotide.length := get?_lt_length h
  unfold ListGenome.insert_te
  rw [pyGet_natCast, h, pySliceIdx_natCast _ _ hlt.le]

theorem retagN_fields : ∀ (k : Nat) (r : Option Nat) (s s1 : LinkedListGenome),
    retagN k r s = some s1 →
    s1.active_TE = s.active_TE ∧ s1.next_TE_id = s.next_TE_id ∧
      s1.length = s.length ∧ s1.head = s.head ∧ s1.nodes.length = s.nodes.length := by
  intro k
  induction k with
  | zero =>
    intro r s s1 h
    simp [retagN] at h
    subst h
    exact ⟨rfl, rfl, rfl, rfl, rfl⟩
  | succ k ih =>
    intro r s s1 h
    match r with
    | none => simp [retagN] at h
    | some a =>
      simp only [retagN] at h
      split at h
      · exact absurd h (by simp)
      · have hf := ih _ _ _ h
        simpa [List.length_set] using hf

theorem disable_te_fields {s s1 : LinkedListGenome} {t : Nat}
    (h : s.disable_te t = some s1) :
    s1.active_TE = ddel t s.active_TE ∧ s1.next_TE_id = s.next_TE_id ∧
      s1.length = s.length ∧ s1.head = s.head ∧ s1.nodes.length = s.nodes.length := by
  unfold LinkedListGenome.disable_te at h
  split at h
  · exact absurd h (by simp)
  · split at h
    · exact absurd h (by simp)
    · rename_i al hal sr hr
      have hf := retagN_fields _ _ _ _ hr
      injection h with h
      subst h
      exact ⟨by rw [hf.1], hf.2.1, hf.2.2.1, hf.2.2.2.1, hf.2.2.2.2⟩

end Genome

namespace Genome

/-- C10 (amended): zero-length insertion diverges between the realizations.
At a valid position not owned by an active TE (and with the pending id
fresh), `ListGenome.insert_te(pos, 0)` returns the fresh id, registers it
as an active TE of length 0, leaves the render unchanged, and advances the
id counter; `LinkedListGenome.insert_te(pos, 0)`, whenever it completes,
returns the fresh id without registering it (it is absent from
`active_tes`), and also advances the counter. -/
theorem C10_zero_length_insert :
    (∀ (s : ListGenome) (pos : Nat) (tag : Option Nat),
        s.nucleotide.get? pos = some tag →
        (∀ k, tag = some k → dlookup k s.active_TE = none) →
        dlookup s.te_id s.active_TE = none →
        (∀ k : Nat, some k ∈ s.nucleotide → k ≠ s.te_id) →
        ∃ s2, s.insert_te (pos : Int) 0 = some (s.te_id, s2)
          ∧ s.te_id ∈ s2.active_tes ∧ dlookup s.te_id s2.active_TE = some 0
          ∧ s2.render = s.render ∧ s2.te_id = s.te_id + 1)
  ∧ (∀ (s : LinkedListGenome) (position : Int) (i : Nat) (s2 : LinkedListGenome),
        s.insert_te position 0 = some (i, s2) →
        dlookup s.next_TE_id s.active_TE = none →
        i = s.next_TE_id ∧ i ∉ s2.active_tes ∧ dlookup i s2.active_TE = none
          ∧ s2.next_TE_id = i + 1) := by
  constructor
  · intro s pos tag h h2 h3 h4
    have hins : s.insert_te (pos : Int) 0 =
        some (s.te_id, ⟨s.nucleotide, s.active_TE ++ [(s.te_id, 0)], s.te_id + 1⟩) := by
      cases tag with
      | none =>
        rw [ListGenome.insert_te_eq_empty s pos 0 h, dset_of_none _ h3]
        simp
      | some k =>
        rw [ListGenome.insert_te_eq_te s pos 0 k h, h2 k rfl]
        simp [dset_of_none _ h3]
    refine ⟨_, hins, ?_, ?_, ?_, rfl⟩
    · show s.te_id ∈ dkeys (s.active_TE ++ [(s.te_id, 0)])
      rw [mem_dkeys_iff, dlookup_append_of_none _ h3]
      simp [dlookup]
    · show dlookup s.te_id (s.active_TE ++ [(s.te_id, 0)]) = some 0
      rw [dlookup_append_of_none _ h3]
      simp [dlookup]
    · show s.nucleotide.map (tagChar (s.active_TE ++ [(s.te_id, 0)])) =
        s.nucleotide.map (tagChar s.active_TE)
      apply List.map_congr_left
      intro tag2 hmem
      cases tag2 with
      | none => rfl
      | some k2 =>
        have hne : k2 ≠ s.te_id := h4 k2 hmem
        simp only [tagChar]
        cases hdk : dlookup k2 s.active_TE with
        | some v => rw [dlookup_append_of_some _ hdk]
        | none =>
          rw [dlookup_append_of_none _ hdk]
          simp [dlookup, Ne.symm hne]
  · intro s position i s2 h hfresh
    unfold LinkedListGenome.insert_te at h
    split at h
    · exact absurd h (by simp)
    · simp only [] at h
      split at h
      · exact absurd h (by simp)
      · split at h
        · exact absurd h (by simp)
        · split at h
          · exact absurd h (by simp)
          · split at h
            · exact absurd h (by simp)
            · split at h
              · exact absurd h (by simp)
              · rename_i hlen0 r1 hwalk r2 hstep ca hca cnd hcnd s1 hs1
                split at h
                · exact absurd h (by simp)
                · rename_i s3 hsplice
                  simp only [spliceLoop] at hsplice
                  injection hsplice with hsplice
                  subst hsplice
                  injection h with h
                  injection h with h1 h2
                  subst h1
                  subst h2
                  have hact : s1.active_TE = s.active_TE ∨
                      ∃ t, s1.active_TE = ddel t s.active_TE := by
                    split at hs1
                    · rcases disable_te_fields hs1 with ⟨ha, _⟩
                      exact Or.inr ⟨_, ha⟩
                    · injection hs1 with hs1
                      subst hs1
                      exact Or.inl rfl
                  have hnone : dlookup s.next_TE_id s1.active_TE = none := by
                    rcases hact with ha | ⟨t, ha⟩
                    · rw [ha]; exact hfresh
                    · rw [ha]; exact dlookup_ddel_none t hfresh
                  refine ⟨rfl, ?_, hnone, rfl⟩
                  show s.next_TE_id ∉ dkeys s1.active_TE
                  rw [mem_dkeys_iff, hnone]
                  simp

/-- C10 witness: the divergence at the concrete state `create 4`,
position 1, length 0. -/
theorem C10_zero_length_witness :
    (∃ s2, (ListGenome.create 4).insert_te (1 : Nat) 0 =
          some ((ListGenome.create 4).te_id, s2)
        ∧ (ListGenome.create 4).te_id ∈ s2.active_tes
        ∧ dlookup (ListGenome.create 4).te_id s2.active_TE = some 0
        ∧ s2.render = (ListGenome.create 4).render
        ∧ s2.te_id = (ListGenome.create 4).te_id + 1)
  ∧ (∃ i s2, (LinkedListGenome.create 4).insert_te 1 0 = some (i, s2)
        ∧ i = 1 ∧ i ∉ s2.active_tes ∧ dlookup i s2.active_TE = none
        ∧ s2.next_TE_id = i + 1) := by
  constructor
  · exact C10_zero_length_insert.1 (ListGenome.create 4) 1 none (by decide)
      (fun k hk => Option.noConfusion hk) (by decide)
      (by intro k hk; simp [ListGenome.create] at hk)
  · rcases heval : (LinkedListGenome.create 4).insert_te 1 0 with _ | ⟨i, s2⟩
    · exact absurd heval (by decide)
    · have hc := C10_zero_length_insert.2 (LinkedListGenome.create 4) 1 i s2 heval
        (by decide)
      exact ⟨i, s2, rfl, hc.1, hc.2.1, hc.2.2.1, hc.2.2.2⟩

end Genome

namespace Genome

theorem ListGenome.insert_te_id {s : ListGenome} {p : Int} {L : Nat} {i : Nat}
    {s1 : ListGenome} (h : s.insert_te p L = some (i, s1)) :
    i = s.te_id ∧ s1.te_id = s.te_id + 1 := by
  unfold ListGenome.insert_te at h
  split at h
  · exact absurd h (by simp)
  · simp only [] at h
    injection h with h
    injection h with h1 h2
    subst h1
    subst h2
    exact ⟨rfl, rfl⟩

theorem ListGenome.copy_te_id {s : ListGenome} {t : Nat} {o : Int} {r : Option Nat}
    {s1 : ListGenome} (h : s.copy_te t o = some (r, s1)) :
    (r = none ∧ s1 = s) ∨ ∃ i, r = some i ∧ i = s.te_id ∧ s1.te_id = s.te_id + 1 := by
  unfold ListGenome.copy_te at h
  split at h
  · injection h with h
    injection h with h1 h2
    exact Or.inl ⟨h1.symm, h2.symm⟩
  · split at h
    · exact absurd h (by simp)
    split at h
    · exact absurd h (by simp)
    split at h
    · exact absurd h (by simp)
    rename_i hins
    injection h with h
    injection h with h1 h2
    obtain ⟨hi, hs⟩ := ListGenome.insert_te_id hins
    subst h1
    subst h2
    exact Or.inr ⟨_, rfl, hi, hs⟩

theorem ListGenome.disable_te_id (s : ListGenome) (t : Nat) :
    (s.disable_te t).te_id = s.te_id := by
  unfold ListGenome.disable_te
  split <;> rfl

theorem ListGenome.step_id {s : ListGenome} {op : GOp} {r : Option Nat} {s1 : ListGenome}
    (h : s.step op = some (r, s1)) :
    (r = none → s1.te_id = s.te_id)
    ∧ (∀ i, r = some i → i = s.te_id ∧ s1.te_id = s.te_id + 1) := by
  cases op with
  | ins p L =>
    simp only [ListGenome.step] at h
    cases hins : s.insert_te p L with
    | none => rw [hins] at h; exact absurd h (by simp)
    | some pr =>
      rw [hins] at h
      obtain ⟨j, sj⟩ := pr
      simp only [Option.map_some'] at h
      injection h with h
      injection h with h1 h2
      obtain ⟨hi, hs⟩ := ListGenome.insert_te_id hins
      subst h1
      subst h2
      exact ⟨fun hc => Option.noConfusion hc, fun i hi2 => by
        injection hi2 with hi2
        subst hi2
        exact ⟨hi, hs⟩⟩
  | cpy t o =>
    simp only [ListGenome.step] at h
    rcases ListGenome.copy_te_id h with ⟨hr, hs⟩ | ⟨i, hr, hi, hs⟩
    · subst hr
      subst hs
      exact ⟨fun _ => rfl, fun i hi => Option.noConfusion hi⟩
    · subst hr
      exact ⟨fun hc => Option.noConfusion hc, fun i2 hi2 => by
        injection hi2 with hi2
        subst hi2
        exact ⟨hi, hs⟩⟩
  | dis t =>
    simp only [ListGenome.step] at h
    injection h with h
    injection h with h1 h2
    subst h1
    subst h2
    exact ⟨fun _ => ListGenome.disable_te_id s t, fun i hi => Option.noConfusion hi⟩

theorem ListGenome.run_ids (ops : List GOp) : ∀ s : ListGenome,
    (ListGenome.run ops s).1 = List.range' s.te_id (ListGenome.run ops s).1.length := by
  induction ops with
  | nil => intro s; rfl
  | cons op ops ih =>
    intro s
    unfold ListGenome.run
    cases hstep : s.step op with
    | none => simp [List.range']
    | some pr =>
      obtain ⟨r, s1⟩ := pr
      have hid := ListGenome.step_id hstep
      simp only []
      cases r with
      | none =>
        simp only [Option.toList, List.nil_append]
        rw [ih s1, hid.1 rfl, List.length_range']
      | some i =>
        obtain ⟨hi, hs1⟩ := hid.2 i rfl
        subst hi
        simp only [Option.toList, List.singleton_append, List.length_cons,
          List.range'_succ]
        rw [ih s1, hs1, List.length_range']

end Genome

namespace Genome

theorem LinkedListGenome.insert_te_idL {s : LinkedListGenome} {p : Int} {L : Nat}
    {i : Nat} {s1 : LinkedListGenome} (h : s.insert_te p L = some (i, s1)) :
    i = s.next_TE_id ∧ s1.next_TE_id = s.next_TE_id + 1 := by
  unfold LinkedListGenome.insert_te at h
  split at h
  · exact absurd h (by simp)
  simp only [] at h
  split at h
  · exact absurd h (by simp)
  split at h
  · exact absurd h (by simp)
  split at h
  · exact absurd h (by simp)
  split at h
  · exact absurd h (by simp)
  split at h
  · exact absurd h (by simp)
  split at h
  · exact absurd h (by simp)
  injection h with h
  injection h with h1 h2
  subst h1
  subst h2
  exact ⟨rfl, rfl⟩

theorem LinkedListGenome.copy_te_idL {s : LinkedListGenome} {t : Nat} {o : Int}
    {r : Option Nat} {s1 : LinkedListGenome} (h : s.copy_te t o = some (r, s1)) :
    (r = none ∧ s1 = s)
    ∨ ∃ i, r = some i ∧ i = s.next_TE_id ∧ s1.next_TE_id = s.next_TE_id + 1 := by
  unfold LinkedListGenome.copy_te at h
  split at h
  · injection h with h
    injection h with h1 h2
    exact Or.inl ⟨h1.symm, h2.symm⟩
  split at h
  · exact absurd h (by simp)
  split at h
  · exact absurd h (by simp)
  simp only [] at h
  split at h
  · exact absurd h (by simp)
  split at h
  · exact absurd h (by simp)
  split at h
  · exact absurd h (by simp)
  split at h
  · exact absurd h (by simp)
  split at h
  · exact absurd h (by simp)
  split at h
  · exact absurd h (by simp)
  injection h with h
  injection h with h1 h2
  subst h1
  subst h2
  exact Or.inr ⟨_, rfl, rfl, rfl⟩

theorem LinkedListGenome.disable_te_idL {s s1 : LinkedListGenome} {t : Nat}
    (h : s.disable_te t = some s1) : s1.next_TE_id = s.next_TE_id :=
  (disable_te_fields h).2.1

theorem LinkedListGenome.step_idL {s : LinkedListGenome} {op : GOp} {r : Option Nat}
    {s1 : LinkedListGenome} (h : s.step op = some (r, s1)) :
    (r = none → s1.next_TE_id = s.next_TE_id)
    ∧ (∀ i, r = some i → i = s.next_TE_id ∧ s1.next_TE_id = s.next_TE_id + 1) := by
  cases op with
  | ins p L =>
    simp only [LinkedListGenome.step] at h
    cases hins : s.insert_te p L with
    | none => rw [hins] at h; exact absurd h (by simp)
    | some pr =>
      rw [hins] at h
      obtain ⟨j, sj⟩ := pr
      simp only [Option.map_some'] at h
      injection h with h
      injection h with h1 h2
      obtain ⟨hi, hs⟩ := LinkedListGenome.insert_te_idL hins
      subst h1
      subst h2
      exact ⟨fun hc => Option.noConfusion hc, fun i hi2 => by
        injection hi2 with hi2
        subst hi2
        exact ⟨hi, hs⟩⟩
  | cpy t o =>
    simp only [LinkedListGenome.step] at h
    rcases LinkedListGenome.copy_te_idL h with ⟨hr, hs⟩ | ⟨i, hr, hi, hs⟩
    · subst hr
      subst hs
      exact ⟨fun _ => rfl, fun i hi => Option.noConfusion hi⟩
    · subst hr
      exact ⟨fun hc => Option.noConfusion hc, fun i2 hi2 => by
        injection hi2 with hi2
        subst hi2
        exact ⟨hi, hs⟩⟩
  | dis t =>
    simp only [LinkedListGenome.step] at h
    cases hdis : s.disable_te t with
    | none => rw [hdis] at h; exact absurd h (by simp)
    | some sd =>
      rw [hdis] at h
      simp only [Option.map_some'] at h
      injection h with h
      injection h with h1 h2
      subst h1
      subst h2
      exact ⟨fun _ => LinkedListGenome.disable_te_idL hdis,
        fun i hi => Option.noConfusion hi⟩

theorem LinkedListGenome.run_idsL (ops : List GOp) : ∀ s : LinkedListGenome,
    (LinkedListGenome.run ops s).1 =
      List.range' s.next_TE_id (LinkedListGenome.run ops s).1.length := by
  induction ops with
  | nil => intro s; rfl
  | cons op ops ih =>
    intro s
    unfold LinkedListGenome.run
    cases hstep : s.step op with
    | none => simp [List.range']
    | some pr =>
      obtain ⟨r, s1⟩ := pr
      have hid := LinkedListGenome.step_idL hstep
      simp only []
      cases r with
      | none =>
        simp only [Option.toList, List.nil_append]
        rw [ih s1, hid.1 rfl, List.length_range']
      | some i =>
        obtain ⟨hi, hs1⟩ := hid.2 i rfl
        subst hi
        simp only [Option.toList, List.singleton_append, List.length_cons,
          List.range'_succ]
        rw [ih s1, hs1, List.length_range']

theorem LinkedListGenome.insert_next_TE_id (s : LinkedListGenome) (te : Nat) :
    (s.insert te).next_TE_id = s.next_TE_id := by
  unfold LinkedListGenome.insert
  simp only []
  split <;> rfl

theorem LinkedListGenome.create_next_TE_id (n : Nat) :
    (LinkedListGenome.create n).next_TE_id = 1 := by
  unfold LinkedListGenome.create
  simp only []
  have hfold : ∀ (l : List Nat) (s0 : LinkedListGenome),
      (l.foldl (fun s _ => s.insert 0) s0).next_TE_id = s0.next_TE_id := by
    intro l
    induction l with
    | nil => intro s0; rfl
    | cons a l ih =>
      intro s0
      rw [List.foldl_cons, ih, LinkedListGenome.insert_next_TE_id]
  exact hfold _ _

/-- C8: over every operation sequence run from `create n`, the ids returned
by successful `insert_te` and `copy_te` calls form exactly the list
`[1, 2, ..., m]` (`List.range' 1 m`): they start at 1, are strictly
increasing, and are never repeated or reused — even after a TE is disabled.
This holds in both realizations. -/
theorem C8_ids_strictly_increasing :
    (∀ (n : Nat) (ops : List GOp),
        (ListGenome.run ops (ListGenome.create n)).1 =
          List.range' 1 (ListGenome.run ops (ListGenome.create n)).1.length)
  ∧ (∀ (n : Nat) (ops : List GOp),
        (LinkedListGenome.run ops (LinkedListGenome.create n)).1 =
          List.range' 1 (LinkedListGenome.run ops (LinkedListGenome.create n)).1.length) := by
  constructor
  · intro n ops
    exact ListGenome.run_ids ops (ListGenome.create n)
  · intro n ops
    have h := LinkedListGenome.run_idsL ops (LinkedListGenome.create n)
    rwa [LinkedListGenome.create_next_TE_id] at h

end Genome

namespace Genome

theorem chainOut_mem {s : LinkedListGenome} : ∀ (fuel a : Nat) (nd : Node),
    nd ∈ chainOut s fuel a → nd ∈ s.nodes := by
  intro fuel
  induction fuel with
  | zero => intro a nd h; simp [chainOut] at h
  | succ fuel ih =>
    intro a nd h
    unfold chainOut at h
    split at h
    · simp at h
    · rename_i nd2 hnd2
      split at h
      · simp at h
      · rcases List.mem_cons.1 h with h | h
        · subst h; exact List.get?_mem hnd2
        · exact ih _ _ h

/-- Tag discipline of a well-formed linked genome: every node's status tag
is 0, 1 or 2; a node tagged active (1) belongs to a TE registered in the
active index; a node tagged disabled (2) belongs to no registered TE. -/
def WFtag (s : LinkedListGenome) : Prop :=
  ∀ nd ∈ s.nodes, nd.te ≤ 2 ∧ (nd.te = 1 → (dlookup nd.te_id s.active_TE).isSome)
    ∧ (nd.te = 2 → dlookup nd.te_id s.active_TE = none)

/-- C9: in both realizations the render has exactly one character per
position, in order from position 0, with no separators: its length always
equals `length_of`.  Each character is `'-'` for an empty position, `'A'`
for a position of an active TE, and `'x'` for a position of a disabled TE
(for the linked realization, under the tag discipline `WFtag` relating a
node's status tag to the active index). -/
theorem C9_render_invariant :
    (∀ s : ListGenome, s.render.length = s.len)
  ∧ (∀ (s : ListGenome) (q : Nat),
        (s.nucleotide.get? q = some none → s.render.get? q = some '-')
      ∧ (∀ k, s.nucleotide.get? q = some (some k) →
          ((dlookup k s.active_TE).isSome → s.render.get? q = some 'A')
          ∧ (dlookup k s.active_TE = none → s.render.get? q = some 'x')))
  ∧ (∀ s : LinkedListGenome, s.render.length = s.len)
  ∧ (∀ s : LinkedListGenome, WFtag s → ∀ (q : Nat) (nd : Node),
        (chainOut s s.nodes.length s.head).get? q = some nd →
        s.render.get? q =
          some (if nd.te = 0 then '-'
                else if (dlookup nd.te_id s.active_TE).isSome then 'A' else 'x')) := by
  refine ⟨?_, ?_, ?_, ?_⟩
  · intro s
    simp [ListGenome.render, ListGenome.len]
  · intro s q
    constructor
    · intro h
      rw [ListGenome.render, List.get?_map, h, Option.map_some']
      rfl
    · intro k h
      constructor
      · intro hk
        rw [ListGenome.render, List.get?_map, h, Option.map_some']
        simp [tagChar, hk]
      · intro hk
        rw [ListGenome.render, List.get?_map, h, Option.map_some']
        simp [tagChar, hk]
  · intro s
    simp [LinkedListGenome.render, LinkedListGenome.len]
  · intro s hwf q nd hq
    rcases hwf nd (chainOut_mem _ _ _ (List.get?_mem hq)) with ⟨hle, h1, h2⟩
    rw [LinkedListGenome.render, List.get?_map, hq, Option.map_some']
    congr 1
    interval_cases hte : nd.te
    · rfl
    · simp [teChar, h1 rfl]
    · simp [teChar, h2 rfl]

/-- C9 witness: the mappings and the length invariant at concrete states:
a two-position `ListGenome` with an active TE at position 0, one with a
disabled TE at position 0, and the fresh linked genome `create 2`. -/
theorem C9_render_witness :
    (⟨[some 5, none], [(5, 1)], 9⟩ : ListGenome).render.length =
        ListGenome.len ⟨[some 5, none], [(5, 1)], 9⟩
  ∧ (⟨[some 5, none], [(5, 1)], 9⟩ : ListGenome).render.get? 1 = some '-'
  ∧ (⟨[some 5, none], [(5, 1)], 9⟩ : ListGenome).render.get? 0 = some 'A'
  ∧ (⟨[some 7, none], [], 9⟩ : ListGenome).render.get? 0 = some 'x'
  ∧ (LinkedListGenome.create 2).render.length =
      LinkedListGenome.len (LinkedListGenome.create 2)
  ∧ (LinkedListGenome.create 2).render.get? 0 = some '-' :=
  ⟨C9_render_invariant.1 ⟨[some 5, none], [(5, 1)], 9⟩,
   (C9_render_invariant.2.1 ⟨[some 5, none], [(5, 1)], 9⟩ 1).1 (by decide),
   ((C9_render_invariant.2.1 ⟨[some 5, none], [(5, 1)], 9⟩ 0).2 5 (by decide)).1 (by decide),
   ((C9_render_invariant.2.1 ⟨[some 7, none], [], 9⟩ 0).2 7 (by decide)).2 (by decide),
   C9_render_invariant.2.2.1 (LinkedListGenome.create 2),
   C9_render_invariant.2.2.2 (LinkedListGenome.create 2) (by unfold WFtag; decide) 0
     ⟨0, some 1, 0⟩ (by decide)⟩

end Genome

namespace Genome

/-- The successor reference stored at address `a` (the `next` field of the
node there), if the address is valid. -/
def nextRef (s : LinkedListGenome) (a : Nat) : Option (Option Nat) :=
  (s.nodes.get? a).map Node.next

/-- `ca` lists the addresses of the node chain of `s` in order: it starts
at the head node, each listed node's `next` points to the next entry, the
final node has no successor, and no address repeats. -/
def isChain (s : LinkedListGenome) (ca : List Nat) : Prop :=
  ca.get? 0 = some s.head
  ∧ (∀ j < ca.length - 1, (ca.get? j).bind (nextRef s) = some (ca.get? (j + 1)))
  ∧ (ca.get? (ca.length - 1)).bind (nextRef s) = some none
  ∧ ca.Nodup

theorem isChain_length_pos {s : LinkedListGenome} {ca : List Nat}
    (h : isChain s ca) : 0 < ca.length :=
  get?_lt_length h.1

theorem isChain_succ {s : LinkedListGenome} {ca : List Nat} (h : isChain s ca)
    {j a : Nat} (hj : ca.get? j = some a) (hlt : j + 1 < ca.length) :
    ∃ nd b, s.nodes.get? a = some nd ∧ nd.next = some b ∧ ca.get? (j + 1) = some b := by
  have hcond := h.2.1 j (by omega)
  rw [hj] at hcond
  simp only [Option.some_bind] at hcond
  have hne : ca.get? (j + 1) ≠ none := by
    intro hno
    rw [List.get?_eq_none] at hno
    omega
  obtain ⟨b, hb⟩ := Option.ne_none_iff_exists'.1 hne
  rw [hb] at hcond
  unfold nextRef at hcond
  cases hget : s.nodes.get? a with
  | none => rw [hget] at hcond; simp at hcond
  | some nd =>
    rw [hget] at hcond
    simp only [Option.map_some'] at hcond
    injection hcond with hcond
    exact ⟨nd, b, rfl, hcond, hb⟩

theorem isChain_node {s : LinkedListGenome} {ca : List Nat} (h : isChain s ca)
    {j a : Nat} (hj : ca.get? j = some a) :
    ∃ nd, s.nodes.get? a = some nd := by
  have hjlt : j < ca.length := get?_lt_length hj
  by_cases hlast : j + 1 < ca.length
  · obtain ⟨nd, b, hnd, _, _⟩ := isChain_succ h hj hlast
    exact ⟨nd, hnd⟩
  · have hj1 : j = ca.length - 1 := by omega
    have hcond := h.2.2.1
    rw [← hj1, hj] at hcond
    simp only [Option.some_bind] at hcond
    unfold nextRef at hcond
    cases hget : s.nodes.get? a with
    | none => rw [hget] at hcond; simp at hcond
    | some nd => exact ⟨nd, rfl⟩

theorem isChain_last {s : LinkedListGenome} {ca : List Nat} (h : isChain s ca)
    {a : Nat} (hj : ca.get? (ca.length - 1) = some a) :
    ∃ nd, s.nodes.get? a = some nd ∧ nd.next = none := by
  have hcond := h.2.2.1
  rw [hj] at hcond
  simp only [Option.some_bind] at hcond
  unfold nextRef at hcond
  cases hget : s.nodes.get? a with
  | none => rw [hget] at hcond; simp at hcond
  | some nd =>
    rw [hget] at hcond
    simp only [Option.map_some'] at hcond
    injection hcond with hcond
    exact ⟨nd, rfl, hcond⟩

theorem isChain_valid {s : LinkedListGenome} {ca : List Nat} (h : isChain s ca)
    {j a : Nat} (hj : ca.get? j = some a) : a < s.nodes.length := by
  obtain ⟨nd, hnd⟩ := isChain_node h hj
  exact get?_lt_length hnd

theorem isChain_length_le {s : LinkedListGenome} {ca : List Nat}
    (h : isChain s ca) : ca.length ≤ s.nodes.length := by
  have hsub : ca.toFinset ⊆ Finset.range s.nodes.length := by
    intro a ha
    rw [List.mem_toFinset] at ha
    obtain ⟨j, hj⟩ := List.mem_iff_get?.1 ha
    rw [Finset.mem_range]
    exact isChain_valid h hj
  calc ca.length = ca.toFinset.card := (List.toFinset_card_of_nodup h.2.2.2).symm
    _ ≤ (Finset.range s.nodes.length).card := Finset.card_le_card hsub
    _ = s.nodes.length := Finset.card_range _

theorem walkN_chain {s : LinkedListGenome} {ca : List Nat} (h : isChain s ca) :
    ∀ (k j a : Nat), ca.get? j = some a → j + k < ca.length →
      walkN s k (some a) = some (ca.get? (j + k)) := by
  intro k
  induction k with
  | zero =>
    intro j a hj _
    rw [Nat.add_zero, hj]
    rfl
  | succ k ih =>
    intro j a hj hlt
    obtain ⟨nd, b, hnd, hnext, hb⟩ := isChain_succ h hj (by omega)
    have hstep : refStep s (some a) = some (some b) := by
      simp only [refStep, hnd, hnext]
    unfold walkN
    rw [hstep]
    show walkN s k (some b) = some (ca.get? (j + (k + 1)))
    rw [show j + (k + 1) = j + 1 + k by omega]
    exact ih (j + 1) b hb (by omega)

end Genome

namespace Genome

theorem chainOut_chain {s : LinkedListGenome} {ca : List Nat} (h : isChain s ca) :
    ∀ (fuel j a : Nat), ca.get? j = some a → ca.length ≤ j + fuel + 1 →
      chainOut s fuel a =
        ((ca.drop j).dropLast).map (fun b => (s.nodes.get? b).getD ⟨0, none, 0⟩) := by
  intro fuel
  induction fuel with
  | zero =>
    intro j a hj hfuel
    have hjlt : j < ca.length := get?_lt_length hj
    have hlen : (ca.drop j).length = 1 := by
      rw [List.length_drop]
      omega
    cases hd : ca.drop j with
    | nil => rw [hd] at hlen; simp at hlen
    | cons b t =>
      rw [hd] at hlen
      simp only [List.length_cons] at hlen
      have ht : t = [] := List.length_eq_zero.1 (by omega)
      subst ht
      simp [chainOut]
  | succ fuel ih =>
    intro j a hj hfuel
    have hjlt : j < ca.length := get?_lt_length hj
    by_cases hlast : j + 1 < ca.length
    · obtain ⟨nd, b, hnd, hnext, hb⟩ := isChain_succ h hj hlast
      have hstep : chainOut s (fuel + 1) a = nd :: chainOut s fuel b := by
        simp only [chainOut, hnd, hnext]
      rw [hstep, ih (j + 1) b hb (by omega)]
      have hget : ca.get ⟨j, hjlt⟩ = a := by
        rw [List.get?_eq_get hjlt] at hj
        injection hj
      rw [List.drop_eq_get_cons hjlt, hget]
      have hne : ca.drop (j + 1) ≠ [] := by
        intro hnil
        have := congrArg List.length hnil
        rw [List.length_drop] at this
        simp at this
        omega
      rw [List.dropLast_cons_of_ne_nil hne, List.map_cons, hnd]
      rfl
    · have hj1 : j = ca.length - 1 := by omega
      obtain ⟨nd, hnd, hnone⟩ := isChain_last h (by rw [← hj1]; exact hj)
      have hstep : chainOut s (fuel + 1) a = [] := by
        simp only [chainOut, hnd, hnone]
      rw [hstep]
      have hlen : (ca.drop j).length = 1 := by
        rw [List.length_drop]
        omega
      cases hd : ca.drop j with
      | nil => rw [hd] at hlen; simp at hlen
      | cons b t =>
        rw [hd] at hlen
        simp only [List.length_cons] at hlen
        have ht : t = [] := List.length_eq_zero.1 (by omega)
        subst ht
        rfl

theorem render_chain {s : LinkedListGenome} {ca : List Nat} (h : isChain s ca) :
    s.render = (ca.dropLast).map
      (fun b => teChar (((s.nodes.get? b).getD ⟨0, none, 0⟩).te)) := by
  unfold LinkedListGenome.render
  rw [chainOut_chain h s.nodes.length 0 s.head h.1
    (by have := isChain_length_le h; omega)]
  rw [List.drop_zero, List.map_map]
  rfl

theorem len_chain {s : LinkedListGenome} {ca : List Nat} (h : isChain s ca) :
    LinkedListGenome.len s = ca.length - 1 := by
  unfold LinkedListGenome.len
  rw [chainOut_chain h s.nodes.length 0 s.head h.1
    (by have := isChain_length_le h; omega)]
  simp [List.length_dropLast]

theorem isChain_of_eq {s s2 : LinkedListGenome} {ca : List Nat} (h : isChain s ca)
    (hn : s2.nodes = s.nodes) (hh : s2.head = s.head) : isChain s2 ca := by
  unfold isChain nextRef at h ⊢
  rw [hn, hh]
  exact h

theorem nextRef_set {s : LinkedListGenome} {a : Nat} {nd nd2 : Node}
    (hget : s.nodes.get? a = some nd) (hnext : nd2.next = nd.next) (b : Nat) :
    nextRef { s with nodes := s.nodes.set a nd2 } b = nextRef s b := by
  unfold nextRef
  by_cases hab : a = b
  · subst hab
    simp only []
    rw [List.get?_set_eq_of_lt _ (get?_lt_length hget), hget]
    simp [hnext]
  · simp only []
    rw [List.get?_set_ne _ _ hab]

theorem isChain_set {s : LinkedListGenome} {ca : List Nat} {a : Nat} {nd nd2 : Node}
    (h : isChain s ca) (hget : s.nodes.get? a = some nd) (hnext : nd2.next = nd.next) :
    isChain { s with nodes := s.nodes.set a nd2 } ca := by
  obtain ⟨h1, h2, h3, h4⟩ := h
  refine ⟨h1, ?_, ?_, h4⟩
  · intro j hj
    have hb : ∃ b, ca.get? j = some b := by
      apply Option.ne_none_iff_exists'.1
      intro hno
      rw [List.get?_eq_none] at hno
      omega
    obtain ⟨b, hb⟩ := hb
    have hc := h2 j hj
    rw [hb] at hc ⊢
    simp only [Option.some_bind] at hc ⊢
    rw [nextRef_set hget hnext b]
    exact hc
  · have hb : ∃ b, ca.get? (ca.length - 1) = some b := by
      apply Option.ne_none_iff_exists'.1
      intro hno
      rw [List.get?_eq_none] at hno
      have := get?_lt_length h1
      omega
    obtain ⟨b, hb⟩ := hb
    rw [hb] at h3 ⊢
    simp only [Option.some_bind] at h3 ⊢
    rw [nextRef_set hget hnext b]
    exact h3

end Genome

namespace Genome

theorem nodup_get?_ne {l : List Nat} (hnd : l.Nodup) {i j a b : Nat}
    (hi : l.get? i = some a) (hj : l.get? j = some b) (hij : i ≠ j) : a ≠ b := by
  intro hab
  subst hab
  exact hij (List.get?_inj (get?_lt_length hi) hnd (hi.trans hj.symm))

theorem retagN_chain : ∀ (Lt : Nat) (s : LinkedListGenome) (ca : List Nat) (p0 anc : Nat),
    isChain s ca → ca.get? p0 = some anc → p0 + Lt ≤ ca.length →
    ∃ s1, retagN Lt (some anc) s = some s1
      ∧ s1.head = s.head ∧ s1.active_TE = s.active_TE ∧ s1.next_TE_id = s.next_TE_id
      ∧ s1.length = s.length ∧ s1.nodes.length = s.nodes.length
      ∧ isChain s1 ca
      ∧ (∀ j b, ca.get? j = some b → p0 ≤ j → j < p0 + Lt →
          ∃ nd, s.nodes.get? b = some nd
            ∧ s1.nodes.get? b = some { nd with te := 2 })
      ∧ (∀ j b, ca.get? j = some b → (j < p0 ∨ p0 + Lt ≤ j) →
          s1.nodes.get? b = s.nodes.get? b) := by
  intro Lt
  induction Lt with
  | zero =>
    intro s ca p0 anc hch hanc hbound
    refine ⟨s, rfl, rfl, rfl, rfl, rfl, rfl, hch, ?_, ?_⟩
    · intro j b _ h1 h2
      omega
    · intro j b _ _
      rfl
  | succ Lt ih =>
    intro s ca p0 anc hch hanc hbound
    obtain ⟨nd, hnd⟩ := isChain_node hch hanc
    have hancv : anc < s.nodes.length := get?_lt_length hnd
    have hred : retagN (Lt + 1) (some anc) s =
        retagN Lt nd.next { s with nodes := s.nodes.set anc { nd with te := 2 } } := by
      simp only [retagN, hnd]
    have hchSet : isChain { s with nodes := s.nodes.set anc { nd with te := 2 } } ca :=
      isChain_set hch hnd rfl
    cases Lt with
    | zero =>
      refine ⟨{ s with nodes := s.nodes.set anc { nd with te := 2 } },
        by rw [hred]; rfl, rfl, rfl, rfl, rfl, by simp, hchSet, ?_, ?_⟩
      · intro j b hjb h1 h2
        have hj : j = p0 := by omega
        subst hj
        have hb : b = anc := by
          rw [hanc] at hjb
          injection hjb with hjb
          exact hjb.symm
        subst hb
        exact ⟨nd, hnd, by simp only []; rw [List.get?_set_eq_of_lt _ hancv]⟩
      · intro j b hjb hout
        have hne : b ≠ anc := nodup_get?_ne hch.2.2.2 hjb hanc (by omega)
        simp only []
        rw [List.get?_set_ne _ _ (Ne.symm hne)]
    | succ Lt2 =>
      obtain ⟨nd2, b2, hnd2, hnext2, hb2⟩ := isChain_succ hch hanc (by omega)
      have hndeq : nd = nd2 := by
        rw [hnd] at hnd2
        exact Option.some.inj hnd2
      subst hndeq
      obtain ⟨s1, hrun, hhead, hact, hnid, hlen, hnlen, hch1, hretag, hunch⟩ :=
        ih { s with nodes := s.nodes.set anc { nd with te := 2 } } ca (p0 + 1) b2
          hchSet hb2 (by omega)
      refine ⟨s1, ?_, hhead, hact, hnid, hlen, by simpa using hnlen, hch1, ?_, ?_⟩
      · rw [hred]
        rw [← hnext2] at hrun
        exact hrun
      · intro j b hjb h1 h2
        by_cases hj : j = p0
        · have hb : b = anc := by
            rw [hj, hanc] at hjb
            exact (Option.some.inj hjb).symm
          refine ⟨nd, by rw [hb]; exact hnd, ?_⟩
          rw [hb, hunch p0 anc hanc (by omega)]
          simp only []
          rw [List.get?_set_eq_of_lt _ hancv]
        · have hne : b ≠ anc := nodup_get?_ne hch.2.2.2 hjb hanc hj
          obtain ⟨ndb, hndb, hndb2⟩ := hretag j b hjb (by omega) (by omega)
          simp only [] at hndb
          rw [List.get?_set_ne _ _ (Ne.symm hne)] at hndb
          exact ⟨ndb, hndb, hndb2⟩
      · intro j b hjb hout
        have hne : b ≠ anc := by
          refine nodup_get?_ne hch.2.2.2 hjb hanc ?_
          omega
        rw [hunch j b hjb (by omega)]
        simp only []
        rw [List.get?_set_ne _ _ (Ne.symm hne)]

end Genome


namespace Genome

theorem caN_get? {ca : List Nat} {i0 : Nat} (n : Nat) (hlt : i0 + 1 < ca.length) :
    ∀ j, (ca.take (i0 + 1) ++ n :: ca.drop (i0 + 1)).get? j =
      if j < i0 + 1 then ca.get? j
      else if j = i0 + 1 then some n
      else ca.get? (j - 1) := by
  have htakelen : (ca.take (i0 + 1)).length = i0 + 1 := by
    rw [List.length_take]
    omega
  intro j
  by_cases h1 : j < i0 + 1
  · rw [List.get?_append (by rw [htakelen]; exact h1), List.get?_take h1, if_pos h1]
  · rw [List.get?_append_right (by rw [htakelen]; omega), htakelen]
    by_cases h2 : j = i0 + 1
    · subst h2
      simp
    · rw [if_neg h1, if_neg h2]
      have hj1 : j - (i0 + 1) = (j - (i0 + 1) - 1) + 1 := by omega
      rw [hj1, List.get?_cons_succ, List.get?_drop]
      congr 1
      omega

theorem caN_length {ca : List Nat} {i0 : Nat} (n : Nat) (hlt : i0 + 1 < ca.length) :
    (ca.take (i0 + 1) ++ n :: ca.drop (i0 + 1)).length = ca.length + 1 := by
  rw [List.length_append, List.length_take, List.length_cons, List.length_drop]
  omega

theorem splice_step_chain {s : LinkedListGenome} {ca : List Nat} {i0 a : Nat} {nd : Node}
    (hch : isChain s ca) (ha : ca.get? i0 = some a) (hlt : i0 + 1 < ca.length)
    (hnd : s.nodes.get? a = some nd) (tid : Nat) :
    isChain { s with nodes := s.nodes.set a { nd with next := some s.nodes.length }
        ++ [⟨1, nd.next, tid⟩] }
      (ca.take (i0 + 1) ++ s.nodes.length :: ca.drop (i0 + 1)) := by
  have hav : a < s.nodes.length := get?_lt_length hnd
  have hgetN := @caN_get? ca i0 s.nodes.length hlt
  have hlenN := @caN_length ca i0 s.nodes.length hlt
  have hsetlen : (s.nodes.set a { nd with next := some s.nodes.length }).length
      = s.nodes.length := List.length_set _ _ _
  have hN1a : (s.nodes.set a { nd with next := some s.nodes.length }
      ++ [({ te := 1, next := nd.next, te_id := tid } : Node)]).get? a
      = some { nd with next := some s.nodes.length } := by
    rw [List.get?_append (by rw [hsetlen]; exact hav)]
    exact List.get?_set_eq_of_lt _ hav
  have hN1n : (s.nodes.set a { nd with next := some s.nodes.length }
      ++ [({ te := 1, next := nd.next, te_id := tid } : Node)]).get? s.nodes.length
      = some ({ te := 1, next := nd.next, te_id := tid } : Node) := by
    rw [List.get?_append_right (by rw [hsetlen])]
    simp [hsetlen]
  have hN1b : ∀ b, b < s.nodes.length → b ≠ a →
      (s.nodes.set a { nd with next := some s.nodes.length }
        ++ [({ te := 1, next := nd.next, te_id := tid } : Node)]).get? b
      = s.nodes.get? b := by
    intro b hb hba
    rw [List.get?_append (by rw [hsetlen]; exact hb)]
    exact List.get?_set_ne _ _ (Ne.symm hba)
  have hnrb : ∀ b, b < s.nodes.length → b ≠ a →
      nextRef { s with nodes := s.nodes.set a { nd with next := some s.nodes.length }
        ++ [⟨1, nd.next, tid⟩] } b = nextRef s b := by
    intro b hb hba
    unfold nextRef
    simp only []
    rw [hN1b b hb hba]
  have hnra : nextRef { s with nodes := s.nodes.set a { nd with next := some s.nodes.length }
      ++ [⟨1, nd.next, tid⟩] } a = some (some s.nodes.length) := by
    unfold nextRef
    simp only []
    rw [hN1a]
    rfl
  have hnrn : nextRef { s with nodes := s.nodes.set a { nd with next := some s.nodes.length }
      ++ [⟨1, nd.next, tid⟩] } s.nodes.length = some nd.next := by
    unfold nextRef
    simp only []
    rw [hN1n]
    rfl
  have hmemlt : ∀ j b, ca.get? j = some b → b < s.nodes.length := by
    intro j b hjb
    exact isChain_valid hch hjb
  have hcaval : ∀ j, j < ca.length → ∃ b, ca.get? j = some b := by
    intro j hj
    apply Option.ne_none_iff_exists'.1
    intro hno
    rw [List.get?_eq_none] at hno
    omega
  obtain ⟨nd0, b0, hnd0, hnext0, hb0⟩ := isChain_succ hch ha hlt
  have hnd0eq : nd0 = nd := by
    rw [hnd] at hnd0
    exact (Option.some.inj hnd0).symm
  subst hnd0eq
  refine ⟨?_, ?_, ?_, ?_⟩
  · rw [hgetN 0, if_pos (show (0 : Nat) < i0 + 1 by omega)]
    exact hch.1
  · intro j hj
    rw [hlenN] at hj
    rw [hgetN j, hgetN (j + 1)]
    by_cases hc1 : j < i0
    · rw [if_pos (show j < i0 + 1 by omega), if_pos (show j + 1 < i0 + 1 by omega)]
      obtain ⟨b, hb⟩ := hcaval j (by omega)
      have hbne : b ≠ a := nodup_get?_ne hch.2.2.2 hb ha (by omega)
      have hcond := hch.2.1 j (by omega)
      rw [hb] at hcond ⊢
      simp only [Option.some_bind] at hcond ⊢
      rw [hnrb b (hmemlt j b hb) hbne]
      exact hcond
    by_cases hc2 : j = i0
    · rw [if_pos (show j < i0 + 1 by omega),
        if_neg (show ¬ (j + 1 < i0 + 1) by omega),
        if_pos (show j + 1 = i0 + 1 by omega)]
      rw [show ca.get? j = some a from by rw [hc2]; exact ha]
      simp only [Option.some_bind]
      exact hnra
    by_cases hc3 : j = i0 + 1
    · rw [if_neg (show ¬ (j < i0 + 1) by omega), if_pos hc3,
        if_neg (show ¬ (j + 1 < i0 + 1) by omega),
        if_neg (show ¬ (j + 1 = i0 + 1) by omega)]
      simp only [Option.some_bind]
      rw [hnrn, hnext0, show j + 1 - 1 = i0 + 1 from by omega, hb0]
    · rw [if_neg (show ¬ (j < i0 + 1) by omega), if_neg hc3,
        if_neg (show ¬ (j + 1 < i0 + 1) by omega),
        if_neg (show ¬ (j + 1 = i0 + 1) by omega)]
      obtain ⟨b, hb⟩ := hcaval (j - 1) (by omega)
      have hbne : b ≠ a := nodup_get?_ne hch.2.2.2 hb ha (by omega)
      have hcond := hch.2.1 (j - 1) (by omega)
      rw [hb] at hcond
      rw [hb]
      simp only [Option.some_bind] at hcond ⊢
      rw [hnrb b (hmemlt _ b hb) hbne,
        show j + 1 - 1 = (j - 1) + 1 from by omega]
      exact hcond
  · rw [hlenN, show ca.length + 1 - 1 = ca.length from by omega, hgetN ca.length,
      if_neg (show ¬ (ca.length < i0 + 1) by omega),
      if_neg (show ¬ (ca.length = i0 + 1) by omega)]
    obtain ⟨b, hb⟩ := hcaval (ca.length - 1) (by omega)
    have hbne : b ≠ a := nodup_get?_ne hch.2.2.2 hb ha (by omega)
    have hcond := hch.2.2.1
    rw [hb] at hcond
    rw [hb]
    simp only [Option.some_bind] at hcond ⊢
    rw [hnrb b (hmemlt _ b hb) hbne]
    exact hcond
  · rw [List.nodup_middle, List.take_append_drop, List.nodup_cons]
    refine ⟨?_, hch.2.2.2⟩
    intro hmem
    obtain ⟨j, hj⟩ := List.mem_iff_get?.1 hmem
    have := hmemlt j _ hj
    omega

end Genome

namespace Genome

theorem N1_get?_at {s : LinkedListGenome} {a : Nat} {nd : Node}
    (hnd : s.nodes.get? a = some nd) (tid : Nat) :
    (s.nodes.set a { nd with next := some s.nodes.length }
      ++ [({ te := 1, next := nd.next, te_id := tid } : Node)]).get? a
      = some { nd with next := some s.nodes.length } := by
  have hav : a < s.nodes.length := get?_lt_length hnd
  rw [List.get?_append (by rw [List.length_set]; exact hav)]
  exact List.get?_set_eq_of_lt _ hav

theorem N1_get?_fresh {s : LinkedListGenome} {a : Nat} {nd : Node}
    (hnd : s.nodes.get? a = some nd) (tid : Nat) :
    (s.nodes.set a { nd with next := some s.nodes.length }
      ++ [({ te := 1, next := nd.next, te_id := tid } : Node)]).get? s.nodes.length
      = some ({ te := 1, next := nd.next, te_id := tid } : Node) := by
  rw [List.get?_append_right (by rw [List.length_set])]
  simp [List.length_set]

theorem N1_get?_other {s : LinkedListGenome} {a : Nat} {nd : Node}
    (hnd : s.nodes.get? a = some nd) (tid : Nat) {b : Nat}
    (hb : b < s.nodes.length) (hba : b ≠ a) :
    (s.nodes.set a { nd with next := some s.nodes.length }
      ++ [({ te := 1, next := nd.next, te_id := tid } : Node)]).get? b
      = s.nodes.get? b := by
  rw [List.get?_append (by rw [List.length_set]; exact hb)]
  exact List.get?_set_ne _ _ (Ne.symm hba)

theorem N1_length {s : LinkedListGenome} (a : Nat) (nd : Node) (tid : Nat) :
    (s.nodes.set a { nd with next := some s.nodes.length }
      ++ [({ te := 1, next := nd.next, te_id := tid } : Node)]).length
      = s.nodes.length + 1 := by
  rw [List.length_append, List.length_set]
  rfl

theorem spliceLoop_false_active (tid Ltot : Nat) : ∀ (k : Nat) (r : Option Nat)
    (s : LinkedListGenome) (dA : List (Nat × Nat × Nat)),
    spliceLoop tid Ltot k r false { s with active_TE := dA } =
      (spliceLoop tid Ltot k r false s).map (fun s2 => { s2 with active_TE := dA }) := by
  intro k
  induction k with
  | zero => intro r s dA; rfl
  | succ k ih =>
    intro r s dA
    cases r with
    | none => rfl
    | some a =>
      simp only [spliceLoop]
      cases hget : s.nodes.get? a with
      | none => rfl
      | some nd =>
        exact ih (some s.nodes.length) { s with nodes := (s.nodes.set a { nd with next := some s.nodes.length } ++ [({ te := 1, next := nd.next, te_id := tid } : Node)]) } dA

theorem spliceLoop_true_register (tid Ltot : Nat) (k : Nat) (r : Option Nat)
    (s : LinkedListGenome) :
    spliceLoop tid Ltot (k + 1) r true s =
      (spliceLoop tid Ltot (k + 1) r false s).map
        (fun s2 => { s2 with
          active_TE := dset tid (s.nodes.length, Ltot) s.active_TE }) := by
  cases r with
  | none => rfl
  | some a =>
    simp only [spliceLoop]
    cases hget : s.nodes.get? a with
    | none => rfl
    | some nd =>
      exact spliceLoop_false_active tid Ltot k (some s.nodes.length)
        { s with nodes := (s.nodes.set a { nd with next := some s.nodes.length } ++ [({ te := 1, next := nd.next, te_id := tid } : Node)]) }
        (dset tid (s.nodes.length, Ltot) s.active_TE)

end Genome

namespace Genome

theorem spliceLoop_false_chain (tid Ltot : Nat) : ∀ (k : Nat) (s : LinkedListGenome)
    (ca : List Nat) (i0 a : Nat),
    isChain s ca → ca.get? i0 = some a → i0 + 1 < ca.length →
    ∃ s2, spliceLoop tid Ltot k (some a) false s = some s2
      ∧ s2.head = s.head ∧ s2.next_TE_id = s.next_TE_id ∧ s2.length = s.length
      ∧ s2.active_TE = s.active_TE
      ∧ s2.nodes.length = s.nodes.length + k
      ∧ isChain s2 (ca.take (i0 + 1) ++ List.range' s.nodes.length k ++ ca.drop (i0 + 1))
      ∧ (∀ b, b < s.nodes.length →
            (s2.nodes.get? b).map Node.te = (s.nodes.get? b).map Node.te
          ∧ (s2.nodes.get? b).map Node.te_id = (s.nodes.get? b).map Node.te_id)
      ∧ (∀ f, f ∈ List.range' s.nodes.length k →
            (s2.nodes.get? f).map Node.te = some 1
          ∧ (s2.nodes.get? f).map Node.te_id = some tid) := by
  intro k
  induction k with
  | zero =>
    intro s ca i0 a hch ha hlt
    refine ⟨s, rfl, rfl, rfl, rfl, rfl, rfl, ?_, ?_, ?_⟩
    · rw [show List.range' s.nodes.length 0 = [] from rfl, List.append_nil,
        List.take_append_drop]
      exact hch
    · intro b hb
      exact ⟨rfl, rfl⟩
    · intro f hf
      simp [List.range'] at hf
  | succ k ih =>
    intro s ca i0 a hch ha hlt
    obtain ⟨nd, hnd⟩ := isChain_node hch ha
    have hchN := splice_step_chain hch ha hlt hnd tid
    have hfreshpos : (ca.take (i0 + 1) ++ s.nodes.length :: ca.drop (i0 + 1)).get? (i0 + 1)
        = some s.nodes.length := by
      rw [caN_get? s.nodes.length hlt (i0 + 1), if_neg (by omega), if_pos rfl]
    have hlenN := @caN_length ca i0 s.nodes.length hlt
    have hmidlen : ({ s with nodes := s.nodes.set a { nd with next := some s.nodes.length } ++ [({ te := 1, next := nd.next, te_id := tid } : Node)] } : LinkedListGenome).nodes.length = s.nodes.length + 1 :=
      N1_length a nd tid
    obtain ⟨s2, hrun, hhead, hnid, hlen, hact, hnlen, hch2, hpres, hnew⟩ :=
      ih { s with nodes := s.nodes.set a { nd with next := some s.nodes.length } ++ [({ te := 1, next := nd.next, te_id := tid } : Node)] }
        (ca.take (i0 + 1) ++ s.nodes.length :: ca.drop (i0 + 1)) (i0 + 1)
        s.nodes.length hchN hfreshpos (by rw [hlenN]; omega)
    have hred : spliceLoop tid Ltot (k + 1) (some a) false s
        = spliceLoop tid Ltot k (some s.nodes.length) false
          { s with nodes := s.nodes.set a { nd with next := some s.nodes.length } ++ [({ te := 1, next := nd.next, te_id := tid } : Node)] } := by
      simp only [spliceLoop]
      rw [hnd]
      rfl
    refine ⟨s2, ?_, hhead, hnid, hlen, hact, ?_, ?_, ?_, ?_⟩
    · rw [hred]
      exact hrun
    · omega
    · have htake : (ca.take (i0 + 1) ++ s.nodes.length :: ca.drop (i0 + 1)).take (i0 + 2)
          = ca.take (i0 + 1) ++ [s.nodes.length] := by
        rw [show i0 + 2 = (ca.take (i0 + 1)).length + 1 from by rw [List.length_take]; omega,
          List.take_append]
        rfl
      have hdrop : (ca.take (i0 + 1) ++ s.nodes.length :: ca.drop (i0 + 1)).drop (i0 + 2)
          = ca.drop (i0 + 1) := by
        rw [show i0 + 2 = (ca.take (i0 + 1)).length + 1 from by rw [List.length_take]; omega,
          List.drop_append]
        rfl
      rw [htake, hdrop, hmidlen] at hch2
      rw [List.range'_succ]
      simp only [List.append_assoc, List.cons_append, List.singleton_append] at hch2 ⊢
      exact hch2
    · intro b hb
      obtain ⟨hte, htid⟩ := hpres b (by omega)
      by_cases hba : b = a
      · rw [hba] at hte htid ⊢
        have hm : ({ s with nodes := s.nodes.set a { nd with next := some s.nodes.length } ++ [({ te := 1, next := nd.next, te_id := tid } : Node)] } : LinkedListGenome).nodes.get? a
            = some { nd with next := some s.nodes.length } := N1_get?_at hnd tid
        rw [hm] at hte htid
        rw [hnd]
        exact ⟨hte, htid⟩
      · have hm : ({ s with nodes := s.nodes.set a { nd with next := some s.nodes.length } ++ [({ te := 1, next := nd.next, te_id := tid } : Node)] } : LinkedListGenome).nodes.get? b
            = s.nodes.get? b := N1_get?_other hnd tid hb hba
        rw [hm] at hte htid
        exact ⟨hte, htid⟩
    · intro f hf
      rw [List.range'_succ] at hf
      rcases List.mem_cons.1 hf with hf | hf
      · subst hf
        obtain ⟨hte, htid⟩ := hpres s.nodes.length (by omega)
        have hm : ({ s with nodes := s.nodes.set a { nd with next := some s.nodes.length } ++ [({ te := 1, next := nd.next, te_id := tid } : Node)] } : LinkedListGenome).nodes.get? s.nodes.length
            = some ({ te := 1, next := nd.next, te_id := tid } : Node) :=
          N1_get?_fresh hnd tid
        rw [hm] at hte htid
        exact ⟨hte, htid⟩
      · refine hnew f ?_
        rw [hmidlen]
        exact hf

end Genome

namespace Genome

theorem dlookup_map_overwrite {α : Type} {k k2 : Nat} (h : k ≠ k2) (v : α) :
    ∀ d : List (Nat × α),
      dlookup k (d.map (fun p => if p.1 == k2 then (k2, v) else p)) = dlookup k d := by
  intro d
  induction d with
  | nil => rfl
  | cons p ps ih =>
    have ih2 : dlookup k (List.map (fun p => if p.1 = k2 then (k2, v) else p) ps)
        = dlookup k ps := by simpa using ih
    by_cases hp : p.1 = k2
    · have hbp : (p.1 == k2) = true := beq_iff_eq.2 hp
      have hpk : ¬ (p.1 = k) := fun hh => h (by rw [← hh, hp])
      simp [dlookup, hbp, hpk, Ne.symm h, ih2]
    · have hbp : (p.1 == k2) = false := by simp [hp]
      by_cases hk : p.1 = k <;> simp [dlookup, hbp, hk, h, hp, Ne.symm h, ih2]

theorem dlookup_dset_ne {α : Type} {k k2 : Nat} (h : k ≠ k2) (v : α)
    (d : List (Nat × α)) : dlookup k (dset k2 v d) = dlookup k d := by
  unfold dset
  split
  · exact dlookup_map_overwrite h v d
  · cases hdk : dlookup k d with
    | some v2 => rw [dlookup_append_of_some _ hdk]
    | none =>
      rw [dlookup_append_of_none _ hdk]
      simp [dlookup, Ne.symm h]

theorem get?_replicate {α : Type} (x : α) : ∀ {L j : Nat}, j < L →
    (List.replicate L x).get? j = some x := by
  intro L
  induction L with
  | zero => intro j h; omega
  | succ L ih =>
    intro j h
    cases j with
    | zero => rfl
    | succ j => simpa [List.replicate] using ih (by omega)

theorem caM_get? {α : Type} {ca : List α} {i0 : Nat} (mid : List α) (hle : i0 ≤ ca.length) :
    ∀ j, (ca.take i0 ++ mid ++ ca.drop i0).get? j =
      if j < i0 then ca.get? j
      else if j < i0 + mid.length then mid.get? (j - i0)
      else ca.get? (j - mid.length) := by
  have htakelen : (ca.take i0).length = i0 := by
    rw [List.length_take]
    omega
  have htm : (ca.take i0 ++ mid).length = i0 + mid.length := by
    rw [List.length_append, htakelen]
  intro j
  rw [show ca.take i0 ++ mid ++ ca.drop i0 = (ca.take i0 ++ mid) ++ ca.drop i0 from rfl]
  by_cases h1 : j < i0
  · rw [if_pos h1, List.get?_append (by rw [htm]; omega),
      List.get?_append (by rw [htakelen]; omega), List.get?_take h1]
  · rw [if_neg h1]
    by_cases h2 : j < i0 + mid.length
    · rw [if_pos h2, List.get?_append (by rw [htm]; omega),
        List.get?_append_right (by rw [htakelen]; omega), htakelen]
    · rw [if_neg h2, List.get?_append_right (by rw [htm]; omega), htm, List.get?_drop]
      congr 1
      omega

theorem get?_dropLast {α : Type} (l : List α) {j : Nat} (h : j < l.length - 1) :
    l.dropLast.get? j = l.get? j := by
  rw [List.dropLast_eq_take, List.get?_take h]

theorem disable_te_chain {s : LinkedListGenome} {ca : List Nat} {t anc Lt p0 : Nat}
    (hch : isChain s ca) (hal : dlookup t s.active_TE = some (anc, Lt))
    (hanc : ca.get? p0 = some anc) (hbound : p0 + Lt ≤ ca.length) :
    ∃ s1, s.disable_te t = some s1
      ∧ s1.head = s.head ∧ s1.active_TE = ddel t s.active_TE
      ∧ s1.next_TE_id = s.next_TE_id ∧ s1.length = s.length
      ∧ s1.nodes.length = s.nodes.length
      ∧ isChain s1 ca
      ∧ (∀ j b, ca.get? j = some b → p0 ≤ j → j < p0 + Lt →
          ∃ nd, s.nodes.get? b = some nd ∧ s1.nodes.get? b = some { nd with te := 2 })
      ∧ (∀ j b, ca.get? j = some b → (j < p0 ∨ p0 + Lt ≤ j) →
          s1.nodes.get? b = s.nodes.get? b) := by
  obtain ⟨sr, hrun, hhead, hact, hnid, hlen, hnlen, hch1, hretag, hunch⟩ :=
    retagN_chain Lt s ca p0 anc hch hanc hbound
  refine ⟨{ sr with active_TE := ddel t sr.active_TE }, ?_, hhead, by rw [hact],
    hnid, hlen, hnlen, isChain_of_eq hch1 rfl rfl, hretag, hunch⟩
  unfold LinkedListGenome.disable_te
  rw [hal]
  simp only []
  rw [hrun]

end Genome

namespace Genome

theorem C5aux_list (s : ListGenome) (pos t L Lt : Nat)
    (hpos : s.nucleotide.get? pos = some (some t))
    (hact : dlookup t s.active_TE = some Lt)
    (hfresh : dlookup s.te_id s.active_TE = none) :
    ∃ s2, s.insert_te (pos : Int) L = some (s.te_id, s2)
      ∧ dlookup t s2.active_TE = none
      ∧ t ∉ s2.active_tes
      ∧ (∀ q k2, s.nucleotide.get? q = some (some k2) → k2 = t →
          s2.render.get? (if q < pos then q else q + L) = some 'x')
      ∧ (∀ j, j < L → s2.render.get? (pos + j) = some 'A') := by
  have hlt : pos < s.nucleotide.length := get?_lt_length hpos
  have htne : t ≠ s.te_id := by
    intro heq
    rw [heq, hfresh] at hact
    exact Option.noConfusion hact
  have hdel : dlookup s.te_id (ddel t s.active_TE) = none := dlookup_ddel_none t hfresh
  have hd1 : dset s.te_id L (ddel t s.active_TE) = ddel t s.active_TE ++ [(s.te_id, L)] :=
    dset_of_none _ hdel
  have hins := ListGenome.insert_te_eq_te s pos L t hpos
  have hcond : (if (dlookup t s.active_TE).isSome = true then ddel t s.active_TE
      else s.active_TE) = ddel t s.active_TE := by
    rw [hact]
    rfl
  rw [hcond, hd1] at hins
  have hlookt : dlookup t (ddel t s.active_TE ++ [(s.te_id, L)]) = none := by
    rw [dlookup_append_of_none _ (dlookup_ddel_self t _)]
    simp [dlookup, Ne.symm htne]
  have hlooki : dlookup s.te_id (ddel t s.active_TE ++ [(s.te_id, L)]) = some L := by
    rw [dlookup_append_of_none _ hdel]
    simp [dlookup]
  have hcharx : tagChar (ddel t s.active_TE ++ [(s.te_id, L)]) (some t) = 'x' := by
    simp only [tagChar, hlookt]
    rfl
  have hcharA : tagChar (ddel t s.active_TE ++ [(s.te_id, L)]) (some s.te_id) = 'A' := by
    simp only [tagChar, hlooki]
    rfl
  have hget2 := @caM_get? _ s.nucleotide pos
    (List.replicate L (some s.te_id)) hlt.le
  refine ⟨_, hins, hlookt, ?_, ?_, ?_⟩
  · show t ∉ dkeys (ddel t s.active_TE ++ [(s.te_id, L)])
    rw [mem_dkeys_iff, hlookt]
    simp
  · intro q k2 hq hk2
    rw [hk2] at hq
    show ((s.nucleotide.take pos ++ List.replicate L (some s.te_id)
        ++ s.nucleotide.drop pos).map
        (tagChar (ddel t s.active_TE ++ [(s.te_id, L)]))).get?
        (if q < pos then q else q + L) = some 'x'
    rw [List.get?_map]
    by_cases hqp : q < pos
    · rw [if_pos hqp, hget2 q, if_pos hqp, hq]
      rw [Option.map_some', hcharx]
    · rw [if_neg hqp, hget2 (q + L),
        if_neg (by simp [List.length_replicate]; omega),
        if_neg (by simp [List.length_replicate]; omega),
        List.length_replicate,
        show q + L - L = q from by omega, hq]
      rw [Option.map_some', hcharx]
  · intro j hj
    show ((s.nucleotide.take pos ++ List.replicate L (some s.te_id)
        ++ s.nucleotide.drop pos).map
        (tagChar (ddel t s.active_TE ++ [(s.te_id, L)]))).get? (pos + j) = some 'A'
    rw [List.get?_map, hget2 (pos + j),
      if_neg (by omega),
      if_pos (by simp [List.length_replicate]; omega),
      show pos + j - pos = j from by omega,
      get?_replicate _ hj]
    rw [Option.map_some', hcharA]

end Genome

namespace Genome

theorem C5aux_linked (s : LinkedListGenome) (ca : List Nat)
    (pos p0 Lt t anc L : Nat)
    (hch : isChain s ca)
    (hcl : ca.length = s.length + 1)
    (hpos1 : 1 ≤ pos) (hposlen : pos < s.length)
    (hal : dlookup t s.active_TE = some (anc, Lt))
    (hanc : ca.get? p0 = some anc)
    (hrunb : p0 + Lt ≤ s.length)
    (hin1 : p0 ≤ pos) (hin2 : pos < p0 + Lt)
    (hown : ∀ j b nd, ca.get? j = some b → s.nodes.get? b = some nd →
        ((nd.te = 1 ∧ nd.te_id = t) ↔ (p0 ≤ j ∧ j < p0 + Lt)))
    (htfresh : t ≠ s.next_TE_id) :
    ∃ s2, s.insert_te (pos : Int) L = some (s.next_TE_id, s2)
      ∧ dlookup t s2.active_TE = none
      ∧ t ∉ s2.active_tes
      ∧ (∀ q, p0 ≤ q → q < p0 + Lt →
          s2.render.get? (if q < pos then q else q + L) = some 'x')
      ∧ (∀ j, j < L → s2.render.get? (pos + j) = some 'A') := by
  have hlen0 : ¬ (s.length = 0) := by omega
  have hcaval : ∀ j, j < ca.length → ∃ b, ca.get? j = some b := by
    intro j hj
    apply Option.ne_none_iff_exists'.1
    intro hno
    rw [List.get?_eq_none] at hno
    omega
  have hmod : ((pos : Int) % (s.length : Int)).toNat = pos := by
    rw [Int.emod_eq_of_lt (by omega) (by exact_mod_cast hposlen)]
    exact Int.toNat_natCast pos
  obtain ⟨b1, hb1⟩ := hcaval (pos - 1) (by omega)
  have hwalk : walkN s (pos - 1) (some s.head) = some (some b1) := by
    have hw := walkN_chain hch (pos - 1) 0 s.head hch.1 (by omega)
    rw [show 0 + (pos - 1) = pos - 1 from by omega, hb1] at hw
    exact hw
  obtain ⟨ndb1, bpos, hndb1, hnextb1, hbpos⟩ := isChain_succ hch hb1 (by omega)
  rw [show pos - 1 + 1 = pos from by omega] at hbpos
  have hstep : refStep s (some b1) = some (some bpos) := by
    simp only [refStep, hndb1, hnextb1]
  obtain ⟨cnd, hcnd⟩ := isChain_node hch hbpos
  have hcndprops : cnd.te = 1 ∧ cnd.te_id = t :=
    (hown pos bpos cnd hbpos hcnd).2 ⟨hin1, hin2⟩
  obtain ⟨s1, hdis, h1head, h1act, h1nid, h1len, h1nlen, h1ch, hretag, hunch⟩ :=
    disable_te_chain hch hal hanc (by omega)
  have hbundle : ∃ s2m, spliceLoop s.next_TE_id L L (some b1) true s1 = some s2m
      ∧ s2m.head = s.head
      ∧ dlookup t s2m.active_TE = none
      ∧ isChain s2m (ca.take pos ++ List.range' s.nodes.length L ++ ca.drop pos)
      ∧ (∀ b, b < s.nodes.length →
          (s2m.nodes.get? b).map Node.te = (s1.nodes.get? b).map Node.te)
      ∧ (∀ f, f ∈ List.range' s.nodes.length L →
          (s2m.nodes.get? f).map Node.te = some 1) := by
    cases L with
    | zero =>
      refine ⟨s1, rfl, h1head, ?_, ?_, ?_, ?_⟩
      · rw [h1act]
        exact dlookup_ddel_self t _
      · rw [show List.range' s.nodes.length 0 = [] from rfl, List.append_nil,
          List.take_append_drop]
        exact h1ch
      · intro b hb
        rfl
      · intro f hf
        simp [List.range'] at hf
    | succ k =>
      obtain ⟨s2f, hrunf, hheadf, hnidf, hlenf, hactf, hnlenf, hchf, hpresf, hnewf⟩ :=
        spliceLoop_false_chain s.next_TE_id (k + 1) (k + 1) s1 ca (pos - 1) b1
          h1ch hb1 (by omega)
      have hreg := spliceLoop_true_register s.next_TE_id (k + 1) k (some b1) s1
      refine ⟨{ s2f with
          active_TE := dset s.next_TE_id (s1.nodes.length, k + 1) s1.active_TE },
        ?_, ?_, ?_, ?_, ?_, ?_⟩
      · rw [hreg, hrunf]
        rfl
      · show s2f.head = s.head
        rw [hheadf, h1head]
      · show dlookup t (dset s.next_TE_id (s1.nodes.length, k + 1) s1.active_TE) = none
        rw [dlookup_dset_ne htfresh _ _, h1act]
        exact dlookup_ddel_self t _
      · have hc : isChain s2f
            (ca.take pos ++ List.range' s.nodes.length (k + 1) ++ ca.drop pos) := by
          have h2 := hchf
          rw [h1nlen] at h2
          rw [show ca.take pos = ca.take (pos - 1 + 1) from by rw [show pos - 1 + 1 = pos from by omega],
            show ca.drop pos = ca.drop (pos - 1 + 1) from by rw [show pos - 1 + 1 = pos from by omega]]
          exact h2
        exact isChain_of_eq hc rfl rfl
      · intro b hb
        show (s2f.nodes.get? b).map Node.te = (s1.nodes.get? b).map Node.te
        exact (hpresf b (by omega)).1
      · intro f hf
        show (s2f.nodes.get? f).map Node.te = some 1
        refine (hnewf f ?_).1
        rw [h1nlen]
        exact hf
  obtain ⟨s2m, hsplice, hmhead, hmact, hmch, hmpres, hmnew⟩ := hbundle
  have hins : s.insert_te (pos : Int) L
      = some (s.next_TE_id,
          { s2m with next_TE_id := s.next_TE_id + 1, length := s2m.length + L }) := by
    simp only [LinkedListGenome.insert_te, if_neg hlen0, hmod, hwalk, hstep, hcnd,
      hcndprops.1, hcndprops.2, hdis, if_true, hsplice]
  have hcaFlen : (ca.take pos ++ List.range' s.nodes.length L ++ ca.drop pos).length
      = ca.length + L := by
    rw [List.length_append, List.length_append, List.length_take,
      List.length_range', List.length_drop]
    omega
  have hcaFget := @caM_get? _ ca pos (List.range' s.nodes.length L)
    (by omega)
  simp only [List.length_range'] at hcaFget
  have hrenderx : ∀ sx : LinkedListGenome, sx.nodes = s2m.nodes → sx.head = s2m.head →
      (∀ q, p0 ≤ q → q < p0 + Lt →
        sx.render.get? (if q < pos then q else q + L) = some 'x')
      ∧ (∀ j, j < L → sx.render.get? (pos + j) = some 'A') := by
    intro sx hxn hxh
    have hchx : isChain sx (ca.take pos ++ List.range' s.nodes.length L ++ ca.drop pos) :=
      isChain_of_eq hmch hxn hxh
    have hrd := render_chain hchx
    rw [hxn] at hrd
    constructor
    · intro q hq1 hq2
      obtain ⟨bq, hbq⟩ := hcaval q (by omega)
      obtain ⟨ndq, hndq, hndq2⟩ := hretag q bq hbq hq1 hq2
      have hte2 : (s2m.nodes.get? bq).map Node.te = some 2 := by
        rw [hmpres bq (isChain_valid hch hbq), hndq2]
        rfl
      obtain ⟨x, hx, hxte⟩ : ∃ x, s2m.nodes.get? bq = some x ∧ x.te = 2 := by
        cases hx : s2m.nodes.get? bq with
        | none => rw [hx] at hte2; simp at hte2
        | some x =>
          rw [hx] at hte2
          exact ⟨x, rfl, by simpa using hte2⟩
      rw [hrd]
      by_cases hqp : q < pos
      · rw [if_pos hqp, List.get?_map, get?_dropLast _ (by omega),
          hcaFget q, if_pos hqp, hbq, Option.map_some', hx]
        rw [show (some x).getD ⟨0, none, 0⟩ = x from rfl, hxte]
        rfl
      · rw [if_neg hqp, List.get?_map, get?_dropLast _ (by omega),
          hcaFget (q + L), if_neg (by omega), if_neg (by omega),
          show q + L - L = q from by omega, hbq, Option.map_some', hx]
        rw [show (some x).getD ⟨0, none, 0⟩ = x from rfl, hxte]
        rfl
    · intro j hj
      have hfmem : s.nodes.length + j ∈ List.range' s.nodes.length L := by
        rw [List.mem_range']
        exact ⟨j, hj, by omega⟩
      have hte1 := hmnew _ hfmem
      obtain ⟨x, hx, hxte⟩ : ∃ x, s2m.nodes.get? (s.nodes.length + j) = some x
          ∧ x.te = 1 := by
        cases hx : s2m.nodes.get? (s.nodes.length + j) with
        | none => rw [hx] at hte1; simp at hte1
        | some x =>
          rw [hx] at hte1
          exact ⟨x, rfl, by simpa using hte1⟩
      rw [hrd, List.get?_map, get?_dropLast _ (by omega), hcaFget (pos + j),
        if_neg (by omega), if_pos (by omega),
        show pos + j - pos = j from by omega,
        List.get?_range' _ _ hj,
        show s.nodes.length + 1 * j = s.nodes.length + j from by omega,
        Option.map_some', hx]
      rw [show (some x).getD ⟨0, none, 0⟩ = x from rfl, hxte]
      rfl
  have hfin := hrenderx
    { s2m with next_TE_id := s.next_TE_id + 1, length := s2m.length + L } rfl rfl
  refine ⟨_, hins, hmact, ?_, hfin.1, hfin.2⟩
  intro hmem
  rw [LinkedListGenome.active_tes, mem_dkeys_iff] at hmem
  rw [show ({ s2m with next_TE_id := s.next_TE_id + 1, length := s2m.length + L } : LinkedListGenome).active_TE = s2m.active_TE from rfl, hmact] at hmem
  simp at hmem

end Genome


namespace Genome

/-- `ListGenome.copy_te` on an active id, once `list.index` has found the
first occurrence, performs exactly the `insert_te` call at the found
position plus the offset, reduced modulo the length (the delegation is
explicit in the source). -/
theorem ListGenome.copy_matches_insert (s : ListGenome) (te : Nat) (offset : Int)
    (L2 pf : Nat)
    (hte : dlookup te s.active_TE = some L2)
    (hfind : s.nucleotide.findIdx? (fun tag => tag == some te) = some pf)
    (hlen0 : s.nucleotide.length ≠ 0) :
    s.copy_te te offset
      = Option.map (fun r => (some r.1, r.2))
          (s.insert_te (((pf : Int) + offset) % (s.nucleotide.length : Int)) L2) := by
  simp only [ListGenome.copy_te, hte, hfind, if_neg hlen0]
  cases s.insert_te (((pf : Int) + offset) % (s.nucleotide.length : Int)) L2 with
  | none => rfl
  | some p => cases p with | mk i s1 => rfl

/-- `LinkedListGenome.copy_te` on an active id whose destination walk stays
on the chain performs exactly the mutation of `insert_te` at that
destination with the registered length: the block after the destination
computation is a verbatim duplicate of the body of `insert_te`. -/
theorem LinkedListGenome.copy_matches_insertL (s : LinkedListGenome) (te : Nat)
    (offset : Int) (al : Nat × Nat) (pos0 dest : Nat)
    (hte : dlookup te s.active_TE = some al)
    (hfind : findTE s te s.length (some s.head) 0 = some pos0)
    (hlen0 : s.length ≠ 0)
    (hdest : pos0 + (offset % (s.length : Int)).toNat = dest)
    (hdlt : dest < s.length) :
    s.copy_te te offset
      = Option.map (fun r => (some r.1, r.2)) (s.insert_te (dest : Int) al.2) := by
  have hmod : ((dest : Int) % (s.length : Int)).toNat = dest := by
    rw [Int.emod_eq_of_lt (by omega) (by exact_mod_cast hdlt)]
    exact Int.toNat_natCast dest
  simp only [LinkedListGenome.copy_te, LinkedListGenome.insert_te, hte, hfind,
    if_neg hlen0, hmod, hdest]
  cases walkN s (dest - 1) (some s.head) with
  | none => rfl
  | some insertionNode =>
    dsimp only []
    cases refStep s insertionNode with
    | none => rfl
    | some cur =>
      dsimp only []
      cases cur with
      | none => rfl
      | some ca2 =>
        dsimp only []
        cases s.nodes.get? ca2 with
        | none => rfl
        | some cnd =>
          dsimp only []
          cases (if cnd.te = 1 then s.disable_te cnd.te_id else some s) with
          | none => rfl
          | some s1 =>
            dsimp only []
            cases spliceLoop s.next_TE_id al.2 al.2 insertionNode true s1 with
            | none => rfl
            | some s2 => rfl

theorem C5aux_list_copy (s : ListGenome) (te dest t Lt L2 pf : Nat) (offset : Int)
    (hte : dlookup te s.active_TE = some L2)
    (hfind : s.nucleotide.findIdx? (fun tag => tag == some te) = some pf)
    (hdest : ((pf : Int) + offset) % (s.nucleotide.length : Int) = (dest : Int))
    (hpos : s.nucleotide.get? dest = some (some t))
    (hact : dlookup t s.active_TE = some Lt)
    (hfresh : dlookup s.te_id s.active_TE = none) :
    ∃ s2, s.copy_te te offset = some (some s.te_id, s2)
      ∧ dlookup t s2.active_TE = none
      ∧ t ∉ s2.active_tes
      ∧ (∀ q k2, s.nucleotide.get? q = some (some k2) → k2 = t →
          s2.render.get? (if q < dest then q else q + L2) = some 'x')
      ∧ (∀ j, j < L2 → s2.render.get? (dest + j) = some 'A') := by
  have hlen0 : s.nucleotide.length ≠ 0 := by
    have := get?_lt_length hpos
    omega
  obtain ⟨s2, hins, h1, h2, h3, h4⟩ := C5aux_list s dest t L2 Lt hpos hact hfresh
  refine ⟨s2, ?_, h1, h2, h3, h4⟩
  rw [ListGenome.copy_matches_insert s te offset L2 pf hte hfind hlen0, hdest, hins]
  rfl

theorem C5aux_linked_copy (s : LinkedListGenome) (ca : List Nat)
    (dest p0 Lt t anc te anc2 L2 pos0 : Nat) (offset : Int)
    (hch : isChain s ca)
    (hcl : ca.length = s.length + 1)
    (hpos1 : 1 ≤ dest) (hposlen : dest < s.length)
    (hte : dlookup te s.active_TE = some (anc2, L2))
    (hfind : findTE s te s.length (some s.head) 0 = some pos0)
    (hdest : pos0 + (offset % (s.length : Int)).toNat = dest)
    (hal : dlookup t s.active_TE = some (anc, Lt))
    (hanc : ca.get? p0 = some anc)
    (hrunb : p0 + Lt ≤ s.length)
    (hin1 : p0 ≤ dest) (hin2 : dest < p0 + Lt)
    (hown : ∀ j b nd, ca.get? j = some b → s.nodes.get? b = some nd →
        ((nd.te = 1 ∧ nd.te_id = t) ↔ (p0 ≤ j ∧ j < p0 + Lt)))
    (htfresh : t ≠ s.next_TE_id) :
    ∃ s2, s.copy_te te offset = some (some s.next_TE_id, s2)
      ∧ dlookup t s2.active_TE = none
      ∧ t ∉ s2.active_tes
      ∧ (∀ q, p0 ≤ q → q < p0 + Lt →
          s2.render.get? (if q < dest then q else q + L2) = some 'x')
      ∧ (∀ j, j < L2 → s2.render.get? (dest + j) = some 'A') := by
  obtain ⟨s2, hins, h1, h2, h3, h4⟩ := C5aux_linked s ca dest p0 Lt t anc L2
    hch hcl hpos1 hposlen hal hanc hrunb hin1 hin2 hown htfresh
  refine ⟨s2, ?_, h1, h2, h3, h4⟩
  have hb := LinkedListGenome.copy_matches_insertL s te offset (anc2, L2) pos0 dest
    hte hfind (by omega) hdest hposlen
  simp only [] at hb
  rw [hb, hins]
  rfl

end Genome

namespace Genome

/-- C5: inserting — or copying, with the copy's destination landing — at a
position owned by an active TE `t` disables `t`: afterwards `t` is no
longer in `active_tes`, every position formerly rendered `'A'` for `t` is
rendered `'x'` (at its shifted index), and the newly placed TE's positions
render `'A'`.  Four parts: `insert_te` in each realization, then `copy_te`
in each realization (the linked `copy_te` through its own duplicated code
path).  The `ListGenome` parts assume the target position holds `t`'s id,
`t` is active, and the pending id is fresh; the `LinkedListGenome` parts
assume a well-formed chain `ca` in which `t`'s registered run
`[p0, p0+Lt)` is exactly the set of active nodes tagged `t` and contains
the destination, and (for the copy) that the search finds the copied TE at
`pos0` and the un-wrapped destination `pos0 + (offset % length)` stays on
the chain. -/
theorem C5_collision_disable :
    (∀ (s : ListGenome) (pos t L Lt : Nat),
        s.nucleotide.get? pos = some (some t) →
        dlookup t s.active_TE = some Lt →
        dlookup s.te_id s.active_TE = none →
        ∃ s2, s.insert_te (pos : Int) L = some (s.te_id, s2)
          ∧ dlookup t s2.active_TE = none
          ∧ t ∉ s2.active_tes
          ∧ (∀ q k2, s.nucleotide.get? q = some (some k2) → k2 = t →
              s2.render.get? (if q < pos then q else q + L) = some 'x')
          ∧ (∀ j, j < L → s2.render.get? (pos + j) = some 'A'))
  ∧ (∀ (s : LinkedListGenome) (ca : List Nat) (pos p0 Lt t anc L : Nat),
        isChain s ca → ca.length = s.length + 1 →
        1 ≤ pos → pos < s.length →
        dlookup t s.active_TE = some (anc, Lt) →
        ca.get? p0 = some anc →
        p0 + Lt ≤ s.length →
        p0 ≤ pos → pos < p0 + Lt →
        (∀ j b nd, ca.get? j = some b → s.nodes.get? b = some nd →
            ((nd.te = 1 ∧ nd.te_id = t) ↔ (p0 ≤ j ∧ j < p0 + Lt))) →
        t ≠ s.next_TE_id →
        ∃ s2, s.insert_te (pos : Int) L = some (s.next_TE_id, s2)
          ∧ dlookup t s2.active_TE = none
          ∧ t ∉ s2.active_tes
          ∧ (∀ q, p0 ≤ q → q < p0 + Lt →
              s2.render.get? (if q < pos then q else q + L) = some 'x')
          ∧ (∀ j, j < L → s2.render.get? (pos + j) = some 'A'))
  ∧ (∀ (s : ListGenome) (te dest t Lt L2 pf : Nat) (offset : Int),
        dlookup te s.active_TE = some L2 →
        s.nucleotide.findIdx? (fun tag => tag == some te) = some pf →
        ((pf : Int) + offset) % (s.nucleotide.length : Int) = (dest : Int) →
        s.nucleotide.get? dest = some (some t) →
        dlookup t s.active_TE = some Lt →
        dlookup s.te_id s.active_TE = none →
        ∃ s2, s.copy_te te offset = some (some s.te_id, s2)
          ∧ dlookup t s2.active_TE = none
          ∧ t ∉ s2.active_tes
          ∧ (∀ q k2, s.nucleotide.get? q = some (some k2) → k2 = t →
              s2.render.get? (if q < dest then q else q + L2) = some 'x')
          ∧ (∀ j, j < L2 → s2.render.get? (dest + j) = some 'A'))
  ∧ (∀ (s : LinkedListGenome) (ca : List Nat)
        (dest p0 Lt t anc te anc2 L2 pos0 : Nat) (offset : Int),
        isChain s ca → ca.length = s.length + 1 →
        1 ≤ dest → dest < s.length →
        dlookup te s.active_TE = some (anc2, L2) →
        findTE s te s.length (some s.head) 0 = some pos0 →
        pos0 + (offset % (s.length : Int)).toNat = dest →
        dlookup t s.active_TE = some (anc, Lt) →
        ca.get? p0 = some anc →
        p0 + Lt ≤ s.length →
        p0 ≤ dest → dest < p0 + Lt →
        (∀ j b nd, ca.get? j = some b → s.nodes.get? b = some nd →
            ((nd.te = 1 ∧ nd.te_id = t) ↔ (p0 ≤ j ∧ j < p0 + Lt))) →
        t ≠ s.next_TE_id →
        ∃ s2, s.copy_te te offset = some (some s.next_TE_id, s2)
          ∧ dlookup t s2.active_TE = none
          ∧ t ∉ s2.active_tes
          ∧ (∀ q, p0 ≤ q → q < p0 + Lt →
              s2.render.get? (if q < dest then q else q + L2) = some 'x')
          ∧ (∀ j, j < L2 → s2.render.get? (dest + j) = some 'A')) :=
  ⟨fun s pos t L Lt h1 h2 h3 => C5aux_list s pos t L Lt h1 h2 h3,
   fun s ca pos p0 Lt t anc L h1 h2 h3 h4 h5 h6 h7 h8 h9 h10 h11 =>
     C5aux_linked s ca pos p0 Lt t anc L h1 h2 h3 h4 h5 h6 h7 h8 h9 h10 h11,
   fun s te dest t Lt L2 pf offset h1 h2 h3 h4 h5 h6 =>
     C5aux_list_copy s te dest t Lt L2 pf offset h1 h2 h3 h4 h5 h6,
   fun s ca dest p0 Lt t anc te anc2 L2 pos0 offset
       h1 h2 h3 h4 h5 h6 h7 h8 h9 h10 h11 h12 h13 h14 =>
     C5aux_linked_copy s ca dest p0 Lt t anc te anc2 L2 pos0 offset
       h1 h2 h3 h4 h5 h6 h7 h8 h9 h10 h11 h12 h13 h14⟩

/-- C5 witness: the collision-disable at concrete states, for all four
parts: a four-position `ListGenome` with TE 1 active on positions 1-2 and
the corresponding linked genome (that of `create 4` after
`insert_te(1, 2)`); inserting a length-1 TE at position 2, and copying
TE 1 with offset 1 (destination 2), in both. -/
theorem C5_collision_disable_witness :
    (∃ s2, (⟨[none, some 1, some 1, none, none, none], [(1, 2)], 2⟩
          : ListGenome).insert_te ((2 : Nat) : Int) 1 = some (2, s2)
        ∧ dlookup 1 s2.active_TE = none
        ∧ 1 ∉ s2.active_tes
        ∧ (∀ q k2, ([none, some 1, some 1, none, none, none]
              : List (Option Nat)).get? q = some (some k2) → k2 = 1 →
            s2.render.get? (if q < 2 then q else q + 1) = some 'x')
        ∧ (∀ j, j < 1 → s2.render.get? (2 + j) = some 'A'))
  ∧ (∃ s2, (⟨[⟨0, some 5, 0⟩, ⟨0, some 2, 0⟩, ⟨0, some 3, 0⟩, ⟨0, some 4, 0⟩,
          ⟨0, none, 0⟩, ⟨1, some 6, 1⟩, ⟨1, some 1, 1⟩], 0, [(1, (5, 2))], 2, 6⟩
          : LinkedListGenome).insert_te ((2 : Nat) : Int) 1 = some (2, s2)
        ∧ dlookup 1 s2.active_TE = none
        ∧ 1 ∉ s2.active_tes
        ∧ (∀ q, 1 ≤ q → q < 3 → s2.render.get? (if q < 2 then q else q + 1) = some 'x')
        ∧ (∀ j, j < 1 → s2.render.get? (2 + j) = some 'A'))
  ∧ (∃ s2, (⟨[none, some 1, some 1, none, none, none], [(1, 2)], 2⟩
          : ListGenome).copy_te 1 1 = some (some 2, s2)
        ∧ dlookup 1 s2.active_TE = none
        ∧ 1 ∉ s2.active_tes
        ∧ (∀ q k2, ([none, some 1, some 1, none, none, none]
              : List (Option Nat)).get? q = some (some k2) → k2 = 1 →
            s2.render.get? (if q < 2 then q else q + 2) = some 'x')
        ∧ (∀ j, j < 2 → s2.render.get? (2 + j) = some 'A'))
  ∧ (∃ s2, (⟨[⟨0, some 5, 0⟩, ⟨0, some 2, 0⟩, ⟨0, some 3, 0⟩, ⟨0, some 4, 0⟩,
          ⟨0, none, 0⟩, ⟨1, some 6, 1⟩, ⟨1, some 1, 1⟩], 0, [(1, (5, 2))], 2, 6⟩
          : LinkedListGenome).copy_te 1 1 = some (some 2, s2)
        ∧ dlookup 1 s2.active_TE = none
        ∧ 1 ∉ s2.active_tes
        ∧ (∀ q, 1 ≤ q → q < 3 → s2.render.get? (if q < 2 then q else q + 2) = some 'x')
        ∧ (∀ j, j < 2 → s2.render.get? (2 + j) = some 'A')) := by
  refine ⟨?_, ?_, ?_, ?_⟩
  · exact C5_collision_disable.1
      ⟨[none, some 1, some 1, none, none, none], [(1, 2)], 2⟩ 2 1 1 2
      (by decide) (by decide) (by decide)
  · refine C5_collision_disable.2.1
      ⟨[⟨0, some 5, 0⟩, ⟨0, some 2, 0⟩, ⟨0, some 3, 0⟩, ⟨0, some 4, 0⟩,
        ⟨0, none, 0⟩, ⟨1, some 6, 1⟩, ⟨1, some 1, 1⟩], 0, [(1, (5, 2))], 2, 6⟩
      [0, 5, 6, 1, 2, 3, 4] 2 1 2 1 5 1
      ?_ (by decide) (by decide) (by decide) (by decide) (by decide) (by decide)
      (by decide) (by decide) ?_ (by decide)
    · unfold isChain
      decide
    · intro j b nd hjb hnd
      have h7 : j < 7 := get?_lt_length hjb
      interval_cases j <;>
        (simp only [List.get?, Option.some.injEq] at hjb; subst hjb;
         simp only [List.get?, Option.some.injEq] at hnd; subst hnd; decide)
  · exact C5_collision_disable.2.2.1
      ⟨[none, some 1, some 1, none, none, none], [(1, 2)], 2⟩ 1 2 1 2 2 1 1
      (by decide) (by decide) (by decide) (by decide) (by decide) (by decide)
  · refine C5_collision_disable.2.2.2
      ⟨[⟨0, some 5, 0⟩, ⟨0, some 2, 0⟩, ⟨0, some 3, 0⟩, ⟨0, some 4, 0⟩,
        ⟨0, none, 0⟩, ⟨1, some 6, 1⟩, ⟨1, some 1, 1⟩], 0, [(1, (5, 2))], 2, 6⟩
      [0, 5, 6, 1, 2, 3, 4] 2 1 2 1 5 1 5 2 1 1
      ?_ (by decide) (by decide) (by decide) (by decide) (by decide) (by decide)
      (by decide) (by decide) (by decide) (by decide) (by decide) ?_ (by decide)
    · unfold isChain
      decide
    · intro j b nd hjb hnd
      have h7 : j < 7 := get?_lt_length hjb
      interval_cases j <;>
        (simp only [List.get?, Option.some.injEq] at hjb; subst hjb;
         simp only [List.get?, Option.some.injEq] at hnd; subst hnd; decide)

end Genome
